import Mathlib

/-!
Shallow embedding of the comparison and isolation engine of
`graderutils/iotester.py` (the A+ python-grader-utils repository), together
with proofs settling the specification claims about it.

Python strings are embedded as `List Char`; the regular-expression scans
used by the code are embedded as deterministic scanners equivalent to the
(backtracking-free on these patterns) regexes of the source; machine
numbers are embedded as `Int`/`Rat` (the idealised value semantics of
Python's `int()`/`float()` on the number grammar the code extracts).
Stateful code is embedded as explicit state passing.
-/

namespace IOTesterSpec

/-! ## Constants from `iotester.py` -/

/-- Maximum number of output characters captured (`MAX_OUTPUT_LENGTH`). -/
def MAX_OUTPUT_LENGTH : Nat := 100000

/-- Placeholder used for replacing numbers in `complete_output_test`
(`IOTESTER_NUMBER`). -/
def IOTESTER_NUMBER : List Char := "[iotester-number]".toList

/-- Placeholder used for numbers where a minus check has to be performed
(`IOTESTER_MINUS_CHECK`). -/
def IOTESTER_MINUS_CHECK : List Char := "[iotester-minus-check]".toList

/-- The default `ignored_characters` setting (`DEFAULT_SETTINGS`). -/
def default_ignored_characters : List Char := ['.', ',', '!', '?', ':', ';', '\'']

/-- Feedback message `MSG_MODEL_ERROR`: shown as a warning when the model
program raised during a comparison. -/
def MSG_MODEL_ERROR : String :=
  "Above exception occurred during execution of\nthe model program. Please notify course staff."

/-- Feedback message `MSG_GRADER_BUFFER`: shown when the captured output
exceeded the allocated buffer space. -/
def MSG_GRADER_BUFFER : String :=
  "Allocated buffer space for output exceeded.\nThe output of your program is too long.\nYour code may be stuck in an infinite loop."

/-! ## Number extraction (`_get_numbers_from_string`)

The source extracts numbers with
`re.findall(r"[-+]?(?:(?:\d+\.\d+)|(?:\d+))(?:[Ee][+-]?\d+)?", string)`.
On this pattern the backtracking regex engine is equivalent to the greedy
deterministic scanner below: a digit cannot be `.`/`e`/a sign, so no
backtracking into a greedy `\d+` run can ever succeed. -/

/-- Scanner for the optional exponent group `(?:[Ee][+-]?\d+)?`. -/
def matchExponent : List Char → Option (List Char × List Char)
  | [] => none
  | c :: rest =>
    if c = 'e' ∨ c = 'E' then
      match rest with
      | [] => none
      | s :: rest2 =>
        if s = '+' ∨ s = '-' then
          let ds := rest2.takeWhile Char.isDigit
          if ds = [] then none
          else some (c :: s :: ds, rest2.dropWhile Char.isDigit)
        else
          let ds := rest.takeWhile Char.isDigit
          if ds = [] then none
          else some (c :: ds, rest.dropWhile Char.isDigit)
    else none

/-- Scanner for the mantissa alternation `(?:(?:\d+\.\d+)|(?:\d+))`. -/
def matchMantissa (cs : List Char) : Option (List Char × List Char) :=
  let d1 := cs.takeWhile Char.isDigit
  if d1 = [] then none
  else
    match cs.dropWhile Char.isDigit with
    | '.' :: r2 =>
      let d2 := r2.takeWhile Char.isDigit
      if d2 = [] then some (d1, cs.dropWhile Char.isDigit)
      else some (d1 ++ '.' :: d2, r2.dropWhile Char.isDigit)
    | _ => some (d1, cs.dropWhile Char.isDigit)

/-- Scanner for the mantissa followed by the optional exponent. -/
def matchBody (cs : List Char) : Option (List Char × List Char) :=
  match matchMantissa cs with
  | none => none
  | some (core, rest) =>
    match matchExponent rest with
    | some (ex, rest2) => some (core ++ ex, rest2)
    | none => some (core, rest)

/-- Scanner for one whole number `[-+]?mantissa[exponent]` anchored at the
start of the list. -/
def matchNumberAt : List Char → Option (List Char × List Char)
  | [] => none
  | c :: rest =>
    if c = '-' ∨ c = '+' then
      match matchBody rest with
      | some (m, r) => some (c :: m, r)
      | none => none
    else matchBody (c :: rest)

theorem matchExponent_rest_le {cs m r : List Char} (h : matchExponent cs = some (m, r)) :
    r.length ≤ cs.length := by
  match cs with
  | [] => simp [matchExponent] at h
  | c :: rest =>
    simp only [matchExponent] at h
    split at h
    · match rest with
      | [] => simp at h
      | s :: rest2 =>
        simp only at h
        split at h
        · split at h
          · simp at h
          · simp only [Option.some.injEq, Prod.mk.injEq] at h
            have : (rest2.dropWhile Char.isDigit).length ≤ rest2.length :=
              List.Sublist.length_le (List.dropWhile_sublist _)
            simp only [← h.2, List.length_cons]
            omega
        · split at h
          · simp at h
          · simp only [Option.some.injEq, Prod.mk.injEq] at h
            have : ((s :: rest2).dropWhile Char.isDigit).length ≤ (s :: rest2).length :=
              List.Sublist.length_le (List.dropWhile_sublist _)
            simp only [← h.2, List.length_cons] at this ⊢
            omega
    · simp at h

theorem length_takeWhile_add_dropWhile (p : Char → Bool) (l : List Char) :
    (l.takeWhile p).length + (l.dropWhile p).length = l.length := by
  rw [← List.length_append, List.takeWhile_append_dropWhile]

theorem matchMantissa_rest_lt {cs m r : List Char} (h : matchMantissa cs = some (m, r)) :
    r.length < cs.length := by
  simp only [matchMantissa] at h
  split at h
  · simp at h
  · rename_i hne
    have hdrop := length_takeWhile_add_dropWhile Char.isDigit cs
    have htake : 0 < (cs.takeWhile Char.isDigit).length :=
      List.length_pos.mpr hne
    split at h
    · rename_i r2 heq
      split at h
      · simp only [Option.some.injEq, Prod.mk.injEq] at h
        rw [heq] at hdrop
        simp only [List.length_cons] at hdrop
        rw [← h.2, heq]
        simp only [List.length_cons]
        omega
      · simp only [Option.some.injEq, Prod.mk.injEq] at h
        have hr2 : (r2.dropWhile Char.isDigit).length ≤ r2.length :=
          List.Sublist.length_le (List.dropWhile_sublist _)
        rw [heq] at hdrop
        simp only [List.length_cons] at hdrop
        rw [← h.2]
        omega
    · simp only [Option.some.injEq, Prod.mk.injEq] at h
      rw [← h.2]
      omega

theorem matchBody_rest_lt {cs m r : List Char} (h : matchBody cs = some (m, r)) :
    r.length < cs.length := by
  simp only [matchBody] at h
  split at h
  · simp at h
  · rename_i core rest hm
    have hrest := matchMantissa_rest_lt hm
    split at h
    · rename_i ex rest2 hex
      simp only [Option.some.injEq, Prod.mk.injEq] at h
      have hle := matchExponent_rest_le hex
      rw [← h.2]
      omega
    · simp only [Option.some.injEq, Prod.mk.injEq] at h
      rw [← h.2]
      omega

theorem matchNumberAt_rest_lt {cs m r : List Char} (h : matchNumberAt cs = some (m, r)) :
    r.length < cs.length := by
  match cs with
  | [] => simp [matchNumberAt] at h
  | c :: rest =>
    simp only [matchNumberAt] at h
    split at h
    · split at h
      · rename_i m' r' hb
        simp only [Option.some.injEq, Prod.mk.injEq] at h
        have := matchBody_rest_lt hb
        rw [← h.2] at *
        simp only [List.length_cons]
        omega
      · simp at h
    · exact matchBody_rest_lt h

/-- Scan loop of `_get_numbers_from_string` with an explicit scan budget;
every step consumes at least one character, so a budget of the string
length gives the untruncated scan. -/
def getNumbersGo : Nat → List Char → List (List Char)
  | 0, _ => []
  | _, [] => []
  | fuel + 1, c :: rest =>
    match matchNumberAt (c :: rest) with
    | some (m, r) => m :: getNumbersGo fuel r
    | none => getNumbersGo fuel rest

theorem getNumbersGo_fuel (n : Nat) : ∀ (fuel fuel' : Nat) (cs : List Char),
    cs.length ≤ n → cs.length ≤ fuel → cs.length ≤ fuel' →
    getNumbersGo fuel cs = getNumbersGo fuel' cs := by
  induction n with
  | zero =>
    intro fuel fuel' cs hn _ _
    have : cs = [] := List.length_eq_zero.mp (Nat.le_zero.mp hn)
    subst this
    cases fuel <;> cases fuel' <;> rfl
  | succ n ih =>
    intro fuel fuel' cs hn hf hf'
    match cs with
    | [] => cases fuel <;> cases fuel' <;> rfl
    | c :: rest =>
      cases fuel with
      | zero => simp at hf
      | succ f =>
        cases fuel' with
        | zero => simp at hf'
        | succ f' =>
          simp only [getNumbersGo]
          cases hm : matchNumberAt (c :: rest) with
          | some p =>
            obtain ⟨m, r⟩ := p
            have hlt := matchNumberAt_rest_lt hm
            simp only [List.length_cons] at hn hf hf' hlt
            show m :: getNumbersGo f r = m :: getNumbersGo f' r
            rw [ih f f' r (by omega) (by omega) (by omega)]
          | none =>
            simp only [List.length_cons] at hn hf hf'
            exact ih f f' rest (by omega) (by omega) (by omega)

/-- Embedding of `_get_numbers_from_string`: the list of numeric substrings
appearing in the string, in order. -/
def getNumbersFromString (cs : List Char) : List (List Char) :=
  getNumbersGo cs.length cs

/-! ## String stripping (`_strip_string`) -/

/-- Lowercasing of a string, embedding `str.lower()` on the characters the
grader handles. -/
def lowerList (s : List Char) : List Char := s.map Char.toLower

/-- Removal of every occurrence of every character of `chars` from `s`,
embedding the loop `for char in chars_to_skip: substring = substring.replace(char, '')`
of `_strip_string`. -/
def removeChars (s : List Char) (chars : List Char) : List Char :=
  chars.foldl (fun acc c => acc.filter (fun x => x ≠ c)) s

/-- First index at which `pat` occurs in `hay`, embedding the searching
`while string[s:e] != numbers[i]` loop of `_strip_string` (which diverges
when the number does not occur; that case is `none` here). -/
def findIndexOfSublist : List Char → List Char → Option Nat
  | [], pat => if pat.isPrefixOf [] then some 0 else none
  | c :: t, pat =>
    if pat.isPrefixOf (c :: t) then some 0
    else (findIndexOfSublist t pat).map (fun i => i + 1)

/-- Recursion of `_strip_string` over the extracted numbers list. `i` is the
running index used against `minus_check_indexes`. -/
def stripStringGo (string : List Char) (numbers : List (List Char)) (i : Nat)
    (chars_to_skip : List Char) (strip_numbers : Bool) (minus_check_indexes : List Nat) :
    Option (List Char) :=
  match numbers with
  | [] => some (removeChars string chars_to_skip)
  | n :: rest =>
    match findIndexOfSublist string n with
    | none => none
    | some s =>
      let e := s + n.length
      let sub := removeChars (string.take s) chars_to_skip
      let placeholder : List Char :=
        if strip_numbers then []
        else if i ∈ minus_check_indexes then IOTESTER_MINUS_CHECK else IOTESTER_NUMBER
      (stripStringGo (string.drop e) rest (i + 1) chars_to_skip strip_numbers
        minus_check_indexes).map (fun t => sub ++ placeholder ++ t)

/-- Embedding of `_strip_string`: removes the ignored characters (plus
`' '` and `'\n'` when `strip_whitespace`) from the text around the numbers,
and either drops each number entirely (`strip_numbers = true`) or replaces
it by a placeholder. -/
def stripString (string : List Char) (numbers : List (List Char))
    (ignored_characters : List Char) (strip_numbers strip_whitespace : Bool)
    (minus_check_indexes : List Nat) : Option (List Char) :=
  let chars_to_skip := ignored_characters ++ (if strip_whitespace then [' ', '\n'] else [])
  stripStringGo string numbers 0 chars_to_skip strip_numbers minus_check_indexes

/-! ## Whitespace minus-check patch (`_whitespace_minus_check_patch`) -/

/-- Python `\s` on the ASCII range. -/
def isPySpace (c : Char) : Bool :=
  c = ' ' ∨ c = '\t' ∨ c = '\n' ∨ c = '\r' ∨ c = '\x0b' ∨ c = '\x0c'

/-- One attempted match of the pattern `\s*[iotester-minus-check]\s*` at the
head of the list: maximal whitespace run, the literal marker, maximal
trailing whitespace run. The marker starts with a non-whitespace character,
so the greedy run needs no backtracking. -/
def matchMinusCheckAt (cs : List Char) : Option (List Char × List Char) :=
  let w1 := cs.takeWhile isPySpace
  let r1 := cs.dropWhile isPySpace
  if IOTESTER_MINUS_CHECK.isPrefixOf r1 then
    let r2 := r1.drop IOTESTER_MINUS_CHECK.length
    some (w1 ++ IOTESTER_MINUS_CHECK ++ r2.takeWhile isPySpace, r2.dropWhile isPySpace)
  else none

theorem matchMinusCheckAt_rest_lt {cs m r : List Char}
    (h : matchMinusCheckAt cs = some (m, r)) : r.length < cs.length := by
  simp only [matchMinusCheckAt] at h
  split at h
  · rename_i hpre
    simp only [Option.some.injEq, Prod.mk.injEq] at h
    have h1 := length_takeWhile_add_dropWhile isPySpace cs
    have hlen : IOTESTER_MINUS_CHECK.length ≤ (cs.dropWhile isPySpace).length := by
      have := List.IsPrefix.length_le (List.isPrefixOf_iff_prefix.mp hpre)
      exact this
    have h2 : ((cs.dropWhile isPySpace).drop IOTESTER_MINUS_CHECK.length).length
        = (cs.dropWhile isPySpace).length - IOTESTER_MINUS_CHECK.length := by
      simp
    have h3 := length_takeWhile_add_dropWhile isPySpace
      ((cs.dropWhile isPySpace).drop IOTESTER_MINUS_CHECK.length)
    have hmc : 0 < IOTESTER_MINUS_CHECK.length := by decide
    rw [← h.2]
    omega
  · simp at h

/-- Scan loop of the marker findall with an explicit scan budget; every step
consumes at least one character, so a budget of the string length gives the
untruncated scan. -/
def findallMinusCheckGo : Nat → List Char → List (List Char)
  | 0, _ => []
  | _, [] => []
  | fuel + 1, c :: t =>
    match matchMinusCheckAt (c :: t) with
    | some (m, r) => m :: findallMinusCheckGo fuel r
    | none => findallMinusCheckGo fuel t

theorem findallMinusCheckGo_fuel (n : Nat) : ∀ (fuel fuel' : Nat) (cs : List Char),
    cs.length ≤ n → cs.length ≤ fuel → cs.length ≤ fuel' →
    findallMinusCheckGo fuel cs = findallMinusCheckGo fuel' cs := by
  induction n with
  | zero =>
    intro fuel fuel' cs hn _ _
    have : cs = [] := List.length_eq_zero.mp (Nat.le_zero.mp hn)
    subst this
    cases fuel <;> cases fuel' <;> rfl
  | succ n ih =>
    intro fuel fuel' cs hn hf hf'
    match cs with
    | [] => cases fuel <;> cases fuel' <;> rfl
    | c :: rest =>
      cases fuel with
      | zero => simp at hf
      | succ f =>
        cases fuel' with
        | zero => simp at hf'
        | succ f' =>
          simp only [findallMinusCheckGo]
          cases hm : matchMinusCheckAt (c :: rest) with
          | some p =>
            obtain ⟨m, r⟩ := p
            have hlt := matchMinusCheckAt_rest_lt hm
            simp only [List.length_cons] at hn hf hf' hlt
            show m :: findallMinusCheckGo f r = m :: findallMinusCheckGo f' r
            rw [ih f f' r (by omega) (by omega) (by omega)]
          | none =>
            simp only [List.length_cons] at hn hf hf'
            exact ih f f' rest (by omega) (by omega) (by omega)

/-- Embedding of `re.findall(r"(\s*[iotester-minus-check]\s*)", string)`:
all non-overlapping matches, scanning left to right. -/
def findallMinusCheck (cs : List Char) : List (List Char) :=
  findallMinusCheckGo cs.length cs

/-- Embedding of Python `str.replace(pat, sub)` (all non-overlapping
occurrences, left to right) for non-empty `pat`; an empty `pat` never
reaches this function in the embedded code. -/
def replaceAllGo (pat sub : List Char) : Nat → List Char → List Char
  | 0, s => s
  | _, [] => []
  | fuel + 1, c :: t =>
    if pat.isPrefixOf (c :: t) then
      sub ++ replaceAllGo pat sub fuel ((c :: t).drop pat.length)
    else c :: replaceAllGo pat sub fuel t

theorem replaceAllGo_fuel (pat sub : List Char) (hpat : 0 < pat.length) (n : Nat) :
    ∀ (fuel fuel' : Nat) (s : List Char),
    s.length ≤ n → s.length ≤ fuel → s.length ≤ fuel' →
    replaceAllGo pat sub fuel s = replaceAllGo pat sub fuel' s := by
  induction n with
  | zero =>
    intro fuel fuel' s hn _ _
    have : s = [] := List.length_eq_zero.mp (Nat.le_zero.mp hn)
    subst this
    cases fuel <;> cases fuel' <;> rfl
  | succ n ih =>
    intro fuel fuel' s hn hf hf'
    match s with
    | [] => cases fuel <;> cases fuel' <;> rfl
    | c :: t =>
      cases fuel with
      | zero => simp at hf
      | succ f =>
        cases fuel' with
        | zero => simp at hf'
        | succ f' =>
          simp only [replaceAllGo]
          by_cases hpre : pat.isPrefixOf (c :: t) = true
          · have hle := List.IsPrefix.length_le (List.isPrefixOf_iff_prefix.mp hpre)
            simp only [List.length_cons] at hn hf hf' hle
            rw [if_pos hpre, if_pos hpre]
            have hdl : (List.drop pat.length (c :: t)).length ≤ t.length := by
              simp only [List.length_drop, List.length_cons]
              omega
            rw [ih f f' (List.drop pat.length (c :: t)) (by omega) (by omega) (by omega)]
          · simp only [List.length_cons] at hn hf hf'
            rw [if_neg hpre, if_neg hpre]
            rw [ih f f' t (by omega) (by omega) (by omega)]

/-- Embedding of `string1.replace(match1[i], match2[i])` for non-empty
pattern; an empty pattern never reaches this call in the embedded code. -/
def replaceAll (s pat sub : List Char) : List Char :=
  if 0 < pat.length then replaceAllGo pat sub s.length s else s

/-- Number of `' '` characters in a list, embedding `str.count(' ')`. -/
def countSpaces (s : List Char) : Nat := (s.filter (fun c => c = ' ')).length

/-- Loop body of `_whitespace_minus_check_patch`: the pairs are
`zip(match1, match2)` computed before the loop starts (the source indexes
`match2[i]` inside the loop; the zip truncation is unreachable because the
marker counts agree whenever the patch is reached). -/
def patchGo (s1 : List Char) : List (List Char × List Char) → List Char
  | [] => s1
  | (m1, m2) :: rest =>
    patchGo
      (if ((countSpaces m2 : Int) - (countSpaces m1 : Int)) ∈ ([-1, 0, 1] : List Int)
        then replaceAll s1 m1 m2 else s1)
      rest

/-- Embedding of `_whitespace_minus_check_patch`. -/
def whitespace_minus_check_patch (string1 string2 : List Char) :
    List Char × List Char :=
  let match1 := findallMinusCheck string1
  let match2 := findallMinusCheck string2
  (patchGo string1 (match1.zip match2), string2)

/-! ## Number value semantics

Value semantics for the numeric substrings the grader extracts; used to
embed Python's `int()` and `float()` on the number grammar of
`_get_numbers_from_string` (an idealisation of `float()` into exact
rationals). -/

/-- Value of a non-empty all-digit run, `none` otherwise. Embeds `int()`
after sign handling. -/
def digitsVal? (s : List Char) : Option Nat :=
  if s ≠ [] ∧ s.all Char.isDigit then
    some (s.foldl (fun acc c => acc * 10 + (c.toNat - '0'.toNat)) 0)
  else none

/-- Splits a leading `-`/`+` sign off a numeral: returns whether the numeral
is negated and the remainder. -/
def splitSign : List Char → Bool × List Char
  | '-' :: rest => (true, rest)
  | '+' :: rest => (false, rest)
  | s => (false, s)

/-- Embedding of Python `int(s)` on sign-plus-digit strings (the only shape
accepted among the grammar's numerals). -/
def intOfString? (s : List Char) : Option Int :=
  (digitsVal? (splitSign s).2).map
    (fun v => if (splitSign s).1 then -(v : Int) else (v : Int))

/-- Value of the exponent part `[Ee][+-]?digits`. -/
def expValue? : List Char → Option Int
  | c :: rest =>
    if c = 'e' ∨ c = 'E' then
      match rest with
      | '-' :: r => (digitsVal? r).map (fun v => -(v : Int))
      | '+' :: r => (digitsVal? r).map (fun v => (v : Int))
      | r => (digitsVal? r).map (fun v => (v : Int))
    else none
  | [] => none

/-- Value of an unsigned numeral `digits[.digits][exponent]`. -/
def numeralValueUnsigned? (s : List Char) : Option ℚ :=
  let ip := s.takeWhile Char.isDigit
  if ip = [] then none
  else
    match s.dropWhile Char.isDigit with
    | [] => some ((digitsVal? ip).getD 0 : ℚ)
    | c :: r2 =>
      if c = '.' then
        let fp := r2.takeWhile Char.isDigit
        if fp = [] then none
        else
          let mant : ℚ := ((digitsVal? ip).getD 0 : ℚ)
            + ((digitsVal? fp).getD 0 : ℚ) / (10 : ℚ) ^ fp.length
          match r2.dropWhile Char.isDigit with
          | [] => some mant
          | r3 => (expValue? r3).map (fun e => mant * (10 : ℚ) ^ e)
      else (expValue? (c :: r2)).map
        (fun e => ((digitsVal? ip).getD 0 : ℚ) * (10 : ℚ) ^ e)

/-- Value (as an exact rational) of a numeral of the grammar, embedding
Python `float(s)` idealised without rounding; `none` when `s` is not of the
grammar. -/
def numeralValue? (s : List Char) : Option ℚ :=
  (numeralValueUnsigned? (splitSign s).2).map
    (fun q => if (splitSign s).1 then -q else q)

/-! ## Numeric comparison mode (`IOTester.numbers_test`) -/

/-- Loop body of the per-pair comparison in `numbers_test` at the default
`compare_formatting=False`: scientific expected numbers are compared as
lowercased strings, integer expected numbers via `int()` within
`max_int_delta`, others via `float()` within `max_float_delta`; a failed
`int()`/`float()` conversion (`ValueError`) fails the test. The
`compare_formatting=True` variant is `numbers_compare_pair_fmt` below. -/
def numbers_compare_pair (number expected_number : List Char)
    (max_int_delta : Int) (max_float_delta : ℚ) : Bool :=
  if 'e' ∈ lowerList expected_number then
    lowerList number == lowerList expected_number
  else if '.' ∉ expected_number then
    match intOfString? number, intOfString? expected_number with
    | some a, some b => decide (|a - b| ≤ max_int_delta)
    | _, _ => false
  else
    match numeralValue? number, numeralValue? expected_number with
    | some a, some b => decide (|a - b| ≤ max_float_delta)
    | _, _ => false

/-- Embedding of the comparison performed by `numbers_test` on the two
captured outputs: extract the numbers from both, require equal counts, then
compare the aligned pairs. -/
def numbers_test_compare (output expected_output : List Char)
    (max_int_delta : Int) (max_float_delta : ℚ) : Bool :=
  let numbers := getNumbersFromString output
  let expected_numbers := getNumbersFromString expected_output
  (numbers.length == expected_numbers.length)
    && (numbers.zip expected_numbers).all
      (fun p => numbers_compare_pair p.1 p.2 max_int_delta max_float_delta)

/-- Python `str.split('.')` on the character list: the (always non-empty)
list of dot-separated parts. -/
def splitDot : List Char → List (List Char)
  | [] => [[]]
  | c :: t =>
    if c = '.' then [] :: splitDot t
    else
      match splitDot t with
      | [] => [[c]]
      | p :: ps => (c :: p) :: ps

/-- The float formatting assertions of `numbers_test` under
`compare_formatting` (iotester.py lines 1905-1906): the parts before the
first dot (`split('.')[0]`) have equal lengths, and the parts after the
first dot (`split('.')[1]`) exist on both sides and have equal lengths; a
missing second part is the `IndexError` of `split('.')[1]`, caught at line
1907 and failing the test. -/
def float_formatting_ok (number expected_number : List Char) : Bool :=
  match splitDot number, splitDot expected_number with
  | p0 :: prest, q0 :: qrest =>
    (p0.length == q0.length)
      && (match prest, qrest with
        | p1 :: _, q1 :: _ => p1.length == q1.length
        | _, _ => false)
  | _, _ => false

/-- Loop body of the per-pair comparison in `numbers_test` when called with
`compare_formatting=True`, as `complete_output_test` does (iotester.py line
2059): on top of the value comparisons of `numbers_compare_pair`, integer
expected numbers additionally require equal string lengths (line 1899) and
float expected numbers additionally require `float_formatting_ok` (lines
1905-1906); scientific expected numbers get no extra check. -/
def numbers_compare_pair_fmt (number expected_number : List Char)
    (max_int_delta : Int) (max_float_delta : ℚ) : Bool :=
  if 'e' ∈ lowerList expected_number then
    lowerList number == lowerList expected_number
  else if '.' ∉ expected_number then
    match intOfString? number, intOfString? expected_number with
    | some a, some b =>
      decide (|a - b| ≤ max_int_delta)
        && (number.length == expected_number.length)
    | _, _ => false
  else
    match numeralValue? number, numeralValue? expected_number with
    | some a, some b =>
      decide (|a - b| ≤ max_float_delta)
        && float_formatting_ok number expected_number
    | _, _ => false

/-- The comparison performed by the `numbers_test` phase of
`complete_output_test` (which passes `compare_formatting=True`): extract
the numbers from both outputs, require equal counts, then apply the
formatting-aware pair comparison to the aligned pairs. -/
def numbers_test_compare_fmt (output expected_output : List Char)
    (max_int_delta : Int) (max_float_delta : ℚ) : Bool :=
  let numbers := getNumbersFromString output
  let expected_numbers := getNumbersFromString expected_output
  (numbers.length == expected_numbers.length)
    && (numbers.zip expected_numbers).all
      (fun p => numbers_compare_pair_fmt p.1 p.2 max_int_delta max_float_delta)

/-! ## Text comparison mode (`IOTester.text_test`) -/

/-- Embedding of the comparison performed by `text_test` on the two captured
outputs: both outputs are stripped of their numbers (`strip_numbers=True`),
whitespace and ignored characters, then compared, case-insensitively unless
`compare_capitalization`. `none` embeds the divergence of `_strip_string`
when a number does not occur in the string (unreachable for extracted
numbers). -/
def text_test_compare (output expected_output : List Char)
    (ignored_characters : List Char) (compare_capitalization : Bool) : Option Bool :=
  let numbers := getNumbersFromString output
  let expected_numbers := getNumbersFromString expected_output
  match stripString output numbers ignored_characters true true [],
      stripString expected_output expected_numbers ignored_characters true true [] with
  | some stripped_output, some expected_stripped_output =>
    some (if compare_capitalization then stripped_output == expected_stripped_output
      else lowerList stripped_output == lowerList expected_stripped_output)
  | _, _ => none

/-! ## Complete output comparison mode (`IOTester.complete_output_test`) -/

/-- Does the numeral start with a minus sign (`str.startswith('-')`)? -/
def startsMinus : List Char → Bool
  | '-' :: _ => true
  | _ => false

/-- Indexes of the aligned number pairs whose signs differ, embedding the
`minus_check_indexes` loop of `complete_output_test` (pairs via `zip`; both
lists have equal length whenever this point is reached). -/
def minusCheckIndexes (numbers expected_numbers : List (List Char)) : List Nat :=
  (((numbers.zip expected_numbers).enum).filter
    (fun p => startsMinus p.2.1 != startsMinus p.2.2)).map (fun p => p.1)

/-- Embedding of the whitespace-phase comparison of `complete_output_test`:
numbers become placeholders (minus-check placeholders where the signs
differ), whitespace is retained, outputs are lowercased, the whitespace
minus-check patch is applied, and the results are compared for equality. -/
def complete_output_compare (output expected_output : List Char)
    (ignored_characters : List Char) : Option Bool :=
  let numbers := getNumbersFromString output
  let expected_numbers := getNumbersFromString expected_output
  let mc := minusCheckIndexes numbers expected_numbers
  match stripString output numbers ignored_characters false false mc,
      stripString expected_output expected_numbers ignored_characters false false mc with
  | some stripped_output, some expected_stripped_output =>
    let oe := whitespace_minus_check_patch (lowerList stripped_output)
      (lowerList expected_stripped_output)
    some (oe.1 == oe.2)
  | _, _ => none

/-! ## Permission checks (`_verify_permissions`) -/

/-- Embedding of `_verify_permissions`: whether `name` may be imported or
opened under the whitelist/blacklist pair. -/
def verify_permissions (name : String) (whitelist blacklist : List String) : Bool :=
  let whitelist_enabled := !whitelist.isEmpty
  if whitelist_enabled then
    let all_whitelisted := whitelist.contains "*"
    all_whitelisted || whitelist.contains name
  else
    let all_blacklisted := blacklist.contains "*"
    !all_blacklisted && !blacklist.contains name

/-! ## Output buffer (`LimitedBuffer`) -/

/-- Embedding of `LimitedBuffer`: a `StringIO` with contents, a stream
position (`tell()`), and a size cap. -/
structure LimitedBuffer where
  content : List Char
  pos : Nat
  max_size : Nat
deriving DecidableEq, Repr

/-- Embedding of `LimitedBuffer.write`: raises `GraderIOError(MSG_GRADER_BUFFER)`
(the `some` message component) when the write would pass the cap, leaving
the buffer untouched; otherwise writes at the current position as
`StringIO.write` does (overwrite-at-position; with the position at the end,
an append). -/
def LimitedBuffer.write (b : LimitedBuffer) (s : List Char) :
    LimitedBuffer × Option String :=
  if b.pos + s.length > b.max_size then
    (b, some MSG_GRADER_BUFFER)
  else
    ({ b with
        content := b.content.take b.pos ++ s ++ b.content.drop (b.pos + s.length),
        pos := b.pos + s.length }, none)

/-- A sequence of writes, stopping at the first raised error. -/
def runWrites (b : LimitedBuffer) : List (List Char) → LimitedBuffer × Option String
  | [] => (b, none)
  | s :: rest =>
    match b.write s with
    | (b', none) => runWrites b' rest
    | (b', some e) => (b', some e)

/-- The capture buffer the `IOTester` constructor allocates:
`LimitedBuffer(max_size=MAX_OUTPUT_LENGTH)`. -/
def iotester_out : LimitedBuffer := ⟨[], 0, MAX_OUTPUT_LENGTH⟩

/-! ## Settings (`IOTester.update_settings` / `IOTester._verify_settings`) -/

/-- The import/open permission lists of the settings dictionary (the other
settings entries are statically typed here and do not interact with the
list-clearing invariant). -/
structure Settings where
  import_whitelist : List String
  import_blacklist : List String
  open_whitelist : List String
  open_blacklist : List String
deriving DecidableEq, Repr

/-- A partial settings dictionary passed to `update_settings`: `none` for a
key that is absent. -/
structure SettingsPatch where
  import_whitelist : Option (List String)
  import_blacklist : Option (List String)
  open_whitelist : Option (List String)
  open_blacklist : Option (List String)
deriving DecidableEq, Repr

/-- The list-related assertions of `_verify_settings`: one list of each
whitelist/blacklist pair must be active, and never both. -/
def verify_settings (s : Settings) : Bool :=
  (!s.import_whitelist.isEmpty || !s.import_blacklist.isEmpty)
    && (!s.open_whitelist.isEmpty || !s.open_blacklist.isEmpty)
    && !((!s.import_whitelist.isEmpty) && (!s.import_blacklist.isEmpty))
    && !((!s.open_whitelist.isEmpty) && (!s.open_blacklist.isEmpty))

/-- First clearing step of `update_settings`: providing either import list
clears both stored import lists. -/
def clear_import_lists (s : Settings) (p : SettingsPatch) : Settings :=
  if p.import_whitelist.isSome || p.import_blacklist.isSome then
    { s with import_whitelist := [], import_blacklist := [] }
  else s

/-- Second clearing step of `update_settings`: providing either open list
clears both stored open lists. -/
def clear_open_lists (s : Settings) (p : SettingsPatch) : Settings :=
  if p.open_whitelist.isSome || p.open_blacklist.isSome then
    { s with open_whitelist := [], open_blacklist := [] }
  else s

/-- The `dict.update` step of `update_settings`: provided keys overwrite,
absent keys keep the (possibly cleared) stored value. -/
def apply_patch (s : Settings) (p : SettingsPatch) : Settings :=
  { import_whitelist := p.import_whitelist.getD s.import_whitelist,
    import_blacklist := p.import_blacklist.getD s.import_blacklist,
    open_whitelist := p.open_whitelist.getD s.open_whitelist,
    open_blacklist := p.open_blacklist.getD s.open_blacklist }

/-- Embedding of `update_settings`: providing either import list clears both
stored import lists (and likewise for open lists) before `dict.update`
overwrites with the provided values; `_verify_settings` then validates, an
`AssertionError` being `none`. -/
def update_settings (s : Settings) (p : SettingsPatch) : Option Settings :=
  let s3 := apply_patch (clear_open_lists (clear_import_lists s p) p) p
  if verify_settings s3 then some s3 else none

/-- The list entries of `DEFAULT_SETTINGS`. -/
def default_settings : Settings :=
  { import_whitelist := ["collections", "copy", "csv", "datetime", "decimal",
      "functools", "itertools", "math", "numbers", "random", "re",
      "statistics", "string", "time"],
    import_blacklist := [],
    open_whitelist := [],
    open_blacklist := ["*"] }

/-! ## State snapshot and restore (`IOTester._save` / `IOTester.restore`)

The process-wide mutable state the snapshot manages, embedded for the
in-process case (`remote.conn is None`). RNG states and builtin hooks are
opaque tokens. -/

/-- The builtin hooks that `restore` resets; `builtin*` are the originals
saved at module import time, `iotester*` the instrumented overrides. -/
inductive Hook where
  | builtinImport | builtinOpen | builtinInput
  | iotesterImport | iotesterOpen | iotesterInput
deriving DecidableEq, Repr

/-- Snapshot recorded by `_save` into `self.previous`. -/
structure Snapshot where
  random_state : Nat
  sys_path : List String
  sys_modules : List String
deriving DecidableEq, Repr

/-- The process-wide mutable state `restore` manipulates, together with the
created-files set owned by the tester and the files present on disk. -/
structure ProcState where
  random_state : Nat
  sys_path : List String
  sys_modules : List String
  import_hook : Hook
  open_hook : Hook
  input_hook : Hook
  cwd : String
  created_files : List String
  files_on_disk : List String
deriving DecidableEq, Repr

/-- The student working directory (`student_path`). -/
def student_path : String := "/submission/user"

/-- Embedding of `_save`: record the current RNG state, `sys.path` and the
loaded-module registry. -/
def save (st : ProcState) : Snapshot :=
  { random_state := st.random_state,
    sys_path := st.sys_path,
    sys_modules := st.sys_modules }

/-- Embedding of `restore`: restore the builtin hooks and `sys.path`, unload
every module not present in the snapshot, reset the RNG state, `chdir` back
to the student path and, when `clean_up_files`, delete the files created
since the save and empty the created-files set. -/
def restore (previous : Snapshot) (clean_up_files : Bool) (st : ProcState) : ProcState :=
  let st :=
    { st with
        import_hook := Hook.builtinImport,
        open_hook := Hook.builtinOpen,
        input_hook := Hook.builtinInput,
        sys_path := previous.sys_path,
        sys_modules := st.sys_modules.filter (fun m => previous.sys_modules.contains m),
        random_state := previous.random_state,
        cwd := student_path }
  if clean_up_files then
    { st with
        files_on_disk := st.files_on_disk.filter (fun f => !st.created_files.contains f),
        created_files := [] }
  else st

/-! ## Comparison driver control flow (`IOTester.text_test`)

The dual-execution driver is embedded over an abstract state type: a
program run is a state transformer returning the collected run data (the
`data` dict of `_run_program`, reduced to the fields the driver inspects).
-/

/-- The run data the comparison drivers inspect: the captured exception (by
class name, as `_raise_exception_with_feedback` dispatches) and the captured
output. -/
structure RunData where
  exception : Option String
  output : List Char
deriving DecidableEq, Repr

/-- Outcome of a `text_test` call: the model run raised, the submission run
raised, or both ran cleanly and the text assertion was evaluated. -/
inductive TestOutcome where
  | modelError (ename : String)
  | studentError (ename : String)
  | assertion (passed : Bool)
deriving DecidableEq, Repr

/-- The warning field `_raise_exception_with_feedback` sets: the
`MSG_MODEL_ERROR` marker exactly when the raising run was the model run. -/
def raise_feedback_warning (model : Bool) : Option String :=
  if model then some MSG_MODEL_ERROR else none

/-- Embedding of the execution order and exception dispatch of `text_test`:
run the model program, then run the student program, then check the model
exception, then the student exception, and only then compare the stripped
outputs. -/
def text_test_flow {σ : Type} (run_model run_student : σ → σ × RunData)
    (ignored_characters : List Char) (compare_capitalization : Bool) (s : σ) :
    σ × TestOutcome :=
  let s_exp := run_model s
  let s_dat := run_student s_exp.1
  let expected_data := s_exp.2
  let data := s_dat.2
  let outcome :=
    match expected_data.exception with
    | some e => TestOutcome.modelError e
    | none =>
      match data.exception with
      | some e => TestOutcome.studentError e
      | none => TestOutcome.assertion
          ((text_test_compare data.output expected_data.output
            ignored_characters compare_capitalization).getD false)
  (s_dat.1, outcome)

/-- A model program for exercising the driver: it logs its execution and
raises. -/
def logging_model_raising (ename : String) : List String → List String × RunData :=
  fun log => (log ++ ["model"], { exception := some ename, output := [] })

/-- A student program for exercising the driver: it logs its execution and
returns cleanly. -/
def logging_student_clean : List String → List String × RunData :=
  fun log => (log ++ ["student"], { exception := none, output := [] })

/-! ## Remote channel and timeouts (`IOTester._run_program` /
`IOTester._override_builtin_import`) -/

/-- The rpyc channel state: whether a remote connection exists
(`remote.conn`) and whether it has been closed. -/
structure ConnState where
  active : Bool
  closed : Bool
deriving DecidableEq, Repr

/-- How the executed target behaved: returned, exceeded the timeout, or
raised. -/
inductive RunEvent where
  | ok
  | timeout
  | raised (ename : String)
deriving DecidableEq, Repr

/-- The grader exception kinds this model distinguishes. -/
inductive ExnKind where
  | graderTimeout
  | graderConnClosed
  | other (ename : String)
deriving DecidableEq, Repr

/-- Embedding of `_override_builtin_import`: locally overridden when there
is no remote connection or the run is the model run; remotely overridden
when the channel is open; `GraderConnClosedError` when it is closed. -/
def override_builtin_import (conn : ConnState) (model : Bool) : Option ExnKind :=
  if !conn.active || model then none
  else if !conn.closed then none
  else some ExnKind.graderConnClosed

/-- Embedding of the channel handling in `_run_program`: installing the
hooks can raise `GraderConnClosedError`; a timed-out student call over an
open remote channel closes the channel and raises `GraderTimeoutError`.
Both exceptions are captured into the run data. -/
def run_program_channel (conn : ConnState) (model : Bool) (ev : RunEvent) :
    ConnState × Option ExnKind :=
  match override_builtin_import conn model with
  | some e => (conn, some e)
  | none =>
    match ev with
    | RunEvent.ok => (conn, none)
    | RunEvent.raised e => (conn, some (ExnKind.other e))
    | RunEvent.timeout =>
      if conn.active && !conn.closed && !model then
        ({ conn with closed := true }, some ExnKind.graderTimeout)
      else (conn, some ExnKind.graderTimeout)

/-! ## Claim C5: permission check semantics -/

/-- C5: `_verify_permissions` is a pure total function returning a boolean;
when the whitelist is non-empty the name is allowed iff the whitelist
contains the wildcard or the name; otherwise the name is allowed iff the
blacklist contains neither the wildcard nor the name (so a whitelist
wildcard allows all names and a blacklist wildcard denies all names). -/
theorem c5_verify_permissions_semantics (name : String) (whitelist blacklist : List String) :
    verify_permissions name whitelist blacklist = true ↔
      ((whitelist ≠ [] ∧ ("*" ∈ whitelist ∨ name ∈ whitelist)) ∨
        (whitelist = [] ∧ "*" ∉ blacklist ∧ name ∉ blacklist)) := by
  cases whitelist with
  | nil => simp [verify_permissions, List.contains, List.elem_eq_mem]
  | cons a l => simp [verify_permissions, List.contains, List.elem_eq_mem]

/-! ## Claim C6: restore is idempotent -/

/-- C6: restoring the same snapshot twice in a row with no intervening save
leaves the process state (RNG state, module search path, loaded-module
registry, builtin hooks, working directory, file state) identical to the
state after restoring once; the second restore is a no-op. -/
theorem c6_restore_idempotent (previous : Snapshot) (clean_up_files : Bool)
    (st : ProcState) :
    restore previous clean_up_files (restore previous clean_up_files st)
      = restore previous clean_up_files st := by
  cases clean_up_files with
  | false =>
    simp only [restore, Bool.false_eq_true, if_false]
    rw [List.filter_filter]
    simp
  | true =>
    simp only [restore, if_true]
    rw [List.filter_filter]
    simp

/-! ## Claim C10: buffer writes are atomic on overflow -/

/-- C10: for every buffer state and string, if the current position plus the
string length exceeds `max_size` then `LimitedBuffer.write` raises
`GraderIOError` leaving the buffer unchanged; otherwise it writes in full at
the current position (an append when the position is at the end). -/
theorem c10_write_atomic (b : LimitedBuffer) (s : List Char) :
    (b.max_size < b.pos + s.length →
      LimitedBuffer.write b s = (b, some MSG_GRADER_BUFFER)) ∧
    (b.pos + s.length ≤ b.max_size →
      (LimitedBuffer.write b s).2 = none ∧
      (LimitedBuffer.write b s).1.content
        = b.content.take b.pos ++ s ++ b.content.drop (b.pos + s.length) ∧
      (LimitedBuffer.write b s).1.pos = b.pos + s.length ∧
      (LimitedBuffer.write b s).1.max_size = b.max_size ∧
      (b.pos = b.content.length →
        (LimitedBuffer.write b s).1.content = b.content ++ s)) := by
  constructor
  · intro h
    simp only [LimitedBuffer.write]
    rw [if_pos (by omega)]
  · intro h
    simp only [LimitedBuffer.write]
    rw [if_neg (by omega)]
    refine ⟨rfl, rfl, rfl, rfl, fun hp => ?_⟩
    rw [hp]
    have hdrop : List.drop (b.content.length + s.length) b.content = [] :=
      List.drop_eq_nil_of_le (by omega)
    rw [List.take_length, hdrop, List.append_nil]

/-- Witness for C10 at concrete buffers: an overflowing write raises and
leaves the buffer unchanged; a fitting write appends. -/
theorem c10_write_atomic_witness :
    LimitedBuffer.write ⟨['a', 'b'], 2, 3⟩ ['c', 'd']
      = (⟨['a', 'b'], 2, 3⟩, some MSG_GRADER_BUFFER) ∧
    (LimitedBuffer.write ⟨['a', 'b'], 2, 4⟩ ['c', 'd']).1.content
      = ['a', 'b'] ++ ['c', 'd'] :=
  ⟨(c10_write_atomic ⟨['a', 'b'], 2, 3⟩ ['c', 'd']).1 (by decide),
    ((c10_write_atomic ⟨['a', 'b'], 2, 4⟩ ['c', 'd']).2 (by decide)).2.2.2.2 (by decide)⟩

/-! ## Claim C7: captured output is capped -/

theorem runWrites_spec (ws : List (List Char)) : ∀ (b : LimitedBuffer),
    b.pos = b.content.length → b.content.length ≤ b.max_size →
    (runWrites b ws).1.pos = (runWrites b ws).1.content.length ∧
    (runWrites b ws).1.content.length ≤ b.max_size ∧
    (runWrites b ws).1.max_size = b.max_size ∧
    (runWrites b ws).2.getD MSG_GRADER_BUFFER = MSG_GRADER_BUFFER ∧
    (∃ k, (runWrites b ws).1.content = b.content ++ (ws.take k).flatten) ∧
    ((runWrites b ws).2.isSome = true ∨
      (runWrites b ws).1.content = b.content ++ ws.flatten) := by
  induction ws with
  | nil =>
    intro b hpos hle
    exact ⟨hpos, hle, rfl, rfl, ⟨0, by simp [runWrites]⟩, Or.inr (by simp [runWrites])⟩
  | cons s rest ih =>
    intro b hpos hle
    by_cases hov : b.max_size < b.pos + s.length
    · have hw := (c10_write_atomic b s).1 hov
      have hrw : runWrites b (s :: rest) = (b, some MSG_GRADER_BUFFER) := by
        simp only [runWrites, hw]
      rw [hrw]
      exact ⟨hpos, hle, rfl, rfl, ⟨0, by simp⟩, Or.inl rfl⟩
    · have hw := (c10_write_atomic b s).2 (by omega)
      obtain ⟨he, hc, hp, hm, hap⟩ := hw
      have hbc := hap hpos
      have hrw : runWrites b (s :: rest) = runWrites (LimitedBuffer.write b s).1 rest := by
        have he' := he
        simp only [runWrites]
        cases hwr : LimitedBuffer.write b s with
        | mk b' e' =>
          rw [hwr] at he'
          simp only at he'
          subst he'
          rfl
      rw [hrw]
      have h1 : (LimitedBuffer.write b s).1.pos
          = (LimitedBuffer.write b s).1.content.length := by
        rw [hp, hbc]
        simp only [List.length_append]
        omega
      have h2 : (LimitedBuffer.write b s).1.content.length
          ≤ (LimitedBuffer.write b s).1.max_size := by
        rw [hbc, hm]
        simp only [List.length_append]
        omega
      obtain ⟨i1, i2, i3, i4, ⟨k, i5⟩, i6⟩ := ih (LimitedBuffer.write b s).1 h1 h2
      rw [hm] at i2 i3
      refine ⟨i1, i2, i3, i4, ⟨k + 1, ?_⟩, ?_⟩
      · rw [i5, hbc]
        simp [List.append_assoc]
      · cases i6 with
        | inl h => exact Or.inl h
        | inr h =>
          refine Or.inr ?_
          rw [h, hbc]
          simp [List.append_assoc]

/-- C7: starting from the capture buffer the tester allocates, any sequence
of writes keeps the retained output within `MAX_OUTPUT_LENGTH` (100,000)
characters: the only error ever raised is `GraderIOError(MSG_GRADER_BUFFER)`
("output too long"), the retained output is always the concatenation of a
prefix of the writes, a write sequence that would pass the cap raises it,
and when no error was raised the whole output is retained. -/
theorem c7_output_capped (ws : List (List Char)) :
    (runWrites iotester_out ws).1.content.length ≤ MAX_OUTPUT_LENGTH ∧
    (runWrites iotester_out ws).2.getD MSG_GRADER_BUFFER = MSG_GRADER_BUFFER ∧
    (∃ k, (runWrites iotester_out ws).1.content = (ws.take k).flatten) ∧
    ((runWrites iotester_out ws).2.isSome = true ∨
      (runWrites iotester_out ws).1.content = ws.flatten) ∧
    (MAX_OUTPUT_LENGTH < ws.flatten.length →
      (runWrites iotester_out ws).2 = some MSG_GRADER_BUFFER) ∧
    MAX_OUTPUT_LENGTH = 100000 := by
  obtain ⟨_, h2, _, h4, h5, h6⟩ := runWrites_spec ws iotester_out rfl (by
    simp [iotester_out])
  have hco : iotester_out.content = [] := rfl
  have hms : iotester_out.max_size = MAX_OUTPUT_LENGTH := rfl
  rw [hco] at h5 h6
  rw [hms] at h2
  simp only [List.nil_append] at h5 h6
  refine ⟨h2, h4, h5, h6, fun hover => ?_, rfl⟩
  rcases h6 with hsome | hall
  · cases he : (runWrites iotester_out ws).2 with
    | none => rw [he] at hsome; simp at hsome
    | some e =>
      rw [he] at h4
      simp only [Option.getD_some] at h4
      rw [h4]
  · exfalso
    rw [hall] at h2
    omega

/-- Witness for C7: a single write one character past the cap raises the
buffer-overflow error. -/
theorem c7_output_capped_witness :
    (runWrites iotester_out [List.replicate 100001 'a']).2 = some MSG_GRADER_BUFFER :=
  (c7_output_capped [List.replicate 100001 'a']).2.2.2.2.1 (by
    rw [List.flatten_cons, List.flatten_nil, List.append_nil, List.length_replicate]
    decide)

/-! ## Claim C9: settings invariant -/

theorem verify_settings_exactly_one {t : Settings} (hv : verify_settings t = true) :
    ((t.import_whitelist ≠ [] ∧ t.import_blacklist = []) ∨
      (t.import_whitelist = [] ∧ t.import_blacklist ≠ [])) ∧
    ((t.open_whitelist ≠ [] ∧ t.open_blacklist = []) ∨
      (t.open_whitelist = [] ∧ t.open_blacklist ≠ [])) := by
  simp only [verify_settings, Bool.and_eq_true, Bool.or_eq_true, Bool.not_eq_true',
    Bool.not_eq_false', Bool.and_eq_false_iff, Bool.not_eq_true,
    List.isEmpty_eq_true, List.isEmpty_eq_false] at hv
  obtain ⟨⟨⟨hi, ho⟩, hib⟩, hob⟩ := hv
  constructor
  · by_cases hw : t.import_whitelist = []
    · exact Or.inr ⟨hw, hi.resolve_left (fun hn => hn hw)⟩
    · exact Or.inl ⟨hw, hib.resolve_left hw⟩
  · by_cases hw : t.open_whitelist = []
    · exact Or.inr ⟨hw, ho.resolve_left (fun hn => hn hw)⟩
    · exact Or.inl ⟨hw, hob.resolve_left hw⟩

theorem clear_fields (s : Settings) (p : SettingsPatch) :
    (clear_open_lists (clear_import_lists s p) p).import_whitelist
      = (if p.import_whitelist.isSome || p.import_blacklist.isSome then []
          else s.import_whitelist) ∧
    (clear_open_lists (clear_import_lists s p) p).import_blacklist
      = (if p.import_whitelist.isSome || p.import_blacklist.isSome then []
          else s.import_blacklist) ∧
    (clear_open_lists (clear_import_lists s p) p).open_whitelist
      = (if p.open_whitelist.isSome || p.open_blacklist.isSome then []
          else s.open_whitelist) ∧
    (clear_open_lists (clear_import_lists s p) p).open_blacklist
      = (if p.open_whitelist.isSome || p.open_blacklist.isSome then []
          else s.open_blacklist) := by
  by_cases hi : (p.import_whitelist.isSome || p.import_blacklist.isSome) = true <;>
    by_cases ho : (p.open_whitelist.isSome || p.open_blacklist.isSome) = true <;>
      simp [clear_import_lists, clear_open_lists, hi, ho]

theorem update_settings_char {s : Settings} {p : SettingsPatch} {s' : Settings}
    (h : update_settings s p = some s') :
    verify_settings s' = true ∧
    s'.import_whitelist = p.import_whitelist.getD
      (if p.import_whitelist.isSome || p.import_blacklist.isSome then []
        else s.import_whitelist) ∧
    s'.import_blacklist = p.import_blacklist.getD
      (if p.import_whitelist.isSome || p.import_blacklist.isSome then []
        else s.import_blacklist) ∧
    s'.open_whitelist = p.open_whitelist.getD
      (if p.open_whitelist.isSome || p.open_blacklist.isSome then []
        else s.open_whitelist) ∧
    s'.open_blacklist = p.open_blacklist.getD
      (if p.open_whitelist.isSome || p.open_blacklist.isSome then []
        else s.open_blacklist) := by
  obtain ⟨hf1, hf2, hf3, hf4⟩ := clear_fields s p
  simp only [update_settings] at h
  split at h
  · rename_i hv
    obtain rfl := Option.some.inj h
    refine ⟨hv, ?_, ?_, ?_, ?_⟩
    · simp only [apply_patch]
      rw [hf1]
    · simp only [apply_patch]
      rw [hf2]
    · simp only [apply_patch]
      rw [hf3]
    · simp only [apply_patch]
      rw [hf4]
  · exact absurd h (by simp)

/-- C9: providing an import (or open) whitelist or blacklist to
`update_settings` clears the stored counterpart list, and after every
successful `update_settings` call exactly one of
`import_whitelist`/`import_blacklist` and exactly one of
`open_whitelist`/`open_blacklist` is non-empty. -/
theorem c9_update_settings_invariant (s : Settings) (p : SettingsPatch) (s' : Settings)
    (h : update_settings s p = some s') :
    ((s'.import_whitelist ≠ [] ∧ s'.import_blacklist = []) ∨
      (s'.import_whitelist = [] ∧ s'.import_blacklist ≠ [])) ∧
    ((s'.open_whitelist ≠ [] ∧ s'.open_blacklist = []) ∨
      (s'.open_whitelist = [] ∧ s'.open_blacklist ≠ [])) ∧
    (p.import_whitelist.isSome = true ∧ p.import_blacklist = none →
      s'.import_blacklist = []) ∧
    (p.import_blacklist.isSome = true ∧ p.import_whitelist = none →
      s'.import_whitelist = []) ∧
    (p.open_whitelist.isSome = true ∧ p.open_blacklist = none →
      s'.open_blacklist = []) ∧
    (p.open_blacklist.isSome = true ∧ p.open_whitelist = none →
      s'.open_whitelist = []) := by
  obtain ⟨hv, h1, h2, h3, h4⟩ := update_settings_char h
  have hx := verify_settings_exactly_one hv
  refine ⟨hx.1, hx.2, ?_, ?_, ?_, ?_⟩
  · rintro ⟨hw, hb⟩
    rw [h2, hb]
    simp [hw]
  · rintro ⟨hb, hw⟩
    rw [h1, hw]
    simp [hb]
  · rintro ⟨hw, hb⟩
    rw [h4, hb]
    simp [hw]
  · rintro ⟨hb, hw⟩
    rw [h3, hw]
    simp [hb]

/-- Witness for C9: updating the default settings with an import blacklist
clears the default import whitelist, leaving exactly one active list in
the import pair. -/
theorem c9_update_settings_invariant_witness :
    (((⟨[], ["os"], [], ["*"]⟩ : Settings).import_whitelist ≠ [] ∧
        (⟨[], ["os"], [], ["*"]⟩ : Settings).import_blacklist = []) ∨
      ((⟨[], ["os"], [], ["*"]⟩ : Settings).import_whitelist = [] ∧
        (⟨[], ["os"], [], ["*"]⟩ : Settings).import_blacklist ≠ [])) ∧
    (⟨[], ["os"], [], ["*"]⟩ : Settings).import_whitelist = [] :=
  ⟨(c9_update_settings_invariant default_settings ⟨none, some ["os"], none, none⟩
      ⟨[], ["os"], [], ["*"]⟩ (by decide)).1,
    (c9_update_settings_invariant default_settings ⟨none, some ["os"], none, none⟩
      ⟨[], ["os"], [], ["*"]⟩ (by decide)).2.2.2.1 ⟨rfl, rfl⟩⟩

/-! ## Claim C2: model failures and submission execution -/

/-- Counterexample to C2 as stated: with a model program that raises, the
driver still executes the submission program (the execution log records
both runs) before reporting the model failure. The failure is reported as a
model error whose feedback carries the `MSG_MODEL_ERROR` warning, but the
submission run is not bypassed. -/
theorem c2_counterexample :
    (text_test_flow (logging_model_raising "ZeroDivisionError") logging_student_clean
      default_ignored_characters false []).1 = ["model", "student"] ∧
    (text_test_flow (logging_model_raising "ZeroDivisionError") logging_student_clean
      default_ignored_characters false []).2
        = TestOutcome.modelError "ZeroDivisionError" ∧
    raise_feedback_warning true = some MSG_MODEL_ERROR :=
  ⟨rfl, rfl, rfl⟩

/-- C2 (amended): when the model run raises, the comparison is skipped and
the failure is reported as a model error — taking precedence over any
submission failure — with the `MSG_MODEL_ERROR` warning marker attached;
the submission program is nevertheless executed (both runs happen before
either exception is checked). -/
theorem c2_model_error_after_both_runs {σ : Type}
    (run_model run_student : σ → σ × RunData) (ignored_characters : List Char)
    (compare_capitalization : Bool) (s : σ) (e : String)
    (h : (run_model s).2.exception = some e) :
    (text_test_flow run_model run_student ignored_characters compare_capitalization s).2
      = TestOutcome.modelError e ∧
    (text_test_flow run_model run_student ignored_characters compare_capitalization s).1
      = (run_student (run_model s).1).1 ∧
    raise_feedback_warning true = some MSG_MODEL_ERROR := by
  refine ⟨?_, rfl, rfl⟩
  simp only [text_test_flow, h]

/-- Witness for C2's amended theorem at a concrete raising model program. -/
theorem c2_model_error_after_both_runs_witness :
    (text_test_flow (logging_model_raising "TypeError") logging_student_clean [] false
      ([] : List String)).2 = TestOutcome.modelError "TypeError" ∧
    (text_test_flow (logging_model_raising "TypeError") logging_student_clean [] false
      ([] : List String)).1
      = (logging_student_clean (logging_model_raising "TypeError" []).1).1 ∧
    raise_feedback_warning true = some MSG_MODEL_ERROR :=
  c2_model_error_after_both_runs (logging_model_raising "TypeError")
    logging_student_clean [] false [] "TypeError" rfl

/-! ## Claim C8: a timed-out remote call closes the channel -/

/-- C8: if a remote-process submission call exceeds the timeout, the channel
is closed as part of handling the timeout (the raised error being the
timeout error), and every subsequent run over the same channel fails with
the distinct `GraderConnClosedError` — regardless of how that run would
have behaved — rather than with a second plain timeout. -/
theorem c8_timeout_closes_channel (conn : ConnState) (ev : RunEvent)
    (ha : conn.active = true) (hc : conn.closed = false) :
    (run_program_channel conn false RunEvent.timeout).2 = some ExnKind.graderTimeout ∧
    (run_program_channel conn false RunEvent.timeout).1.closed = true ∧
    (run_program_channel conn false RunEvent.timeout).1.active = true ∧
    (run_program_channel (run_program_channel conn false RunEvent.timeout).1 false ev).2
      = some ExnKind.graderConnClosed ∧
    (run_program_channel (run_program_channel conn false RunEvent.timeout).1 false ev).1
      = (run_program_channel conn false RunEvent.timeout).1 := by
  have hstep : run_program_channel conn false RunEvent.timeout
      = ({ conn with closed := true }, some ExnKind.graderTimeout) := by
    simp [run_program_channel, override_builtin_import, ha, hc]
  rw [hstep]
  refine ⟨rfl, rfl, ha, ?_, ?_⟩ <;>
    simp [run_program_channel, override_builtin_import, ha]

/-- Witness for C8 at a concrete open channel whose next run would time out
again: the second failure is the connection-closed error, not a timeout. -/
theorem c8_timeout_closes_channel_witness :
    (run_program_channel ⟨true, false⟩ false RunEvent.timeout).2
      = some ExnKind.graderTimeout ∧
    (run_program_channel (run_program_channel ⟨true, false⟩ false RunEvent.timeout).1
      false RunEvent.timeout).2 = some ExnKind.graderConnClosed :=
  ⟨(c8_timeout_closes_channel ⟨true, false⟩ RunEvent.timeout rfl rfl).1,
    (c8_timeout_closes_channel ⟨true, false⟩ RunEvent.timeout rfl rfl).2.2.2.1⟩

/-! ## Claim C1: text mode strips numbers without placeholders -/

theorem isDigit_not_sign {c : Char} (h : c.isDigit = true) : ¬(c = '-' ∨ c = '+') := by
  rintro (rfl | rfl) <;> exact absurd h (by decide)

theorem getNumbersGo_nil (fuel : Nat) : getNumbersGo fuel [] = [] := by
  cases fuel <;> rfl

theorem matchNumberAt_none_of_skip {c : Char} {t : List Char} (hd : c.isDigit = false)
    (hs : ¬(c = '-' ∨ c = '+')) : matchNumberAt (c :: t) = none := by
  simp only [matchNumberAt]
  rw [if_neg hs]
  simp [matchBody, matchMantissa, List.takeWhile_cons, hd]

theorem getNumbers_cons_of_skip {c : Char} {t : List Char} (hd : c.isDigit = false)
    (hs : ¬(c = '-' ∨ c = '+')) :
    getNumbersFromString (c :: t) = getNumbersFromString t := by
  simp only [getNumbersFromString, List.length_cons, getNumbersGo,
    matchNumberAt_none_of_skip hd hs]

theorem getNumbers_nil_of_skip {pre : List Char}
    (hpre : ∀ c ∈ pre, c.isDigit = false ∧ ¬(c = '-' ∨ c = '+')) :
    getNumbersFromString pre = [] := by
  induction pre with
  | nil => rfl
  | cons c t ih =>
    obtain ⟨hd, hs⟩ := hpre c (List.mem_cons_self c t)
    rw [getNumbers_cons_of_skip hd hs]
    exact ih (fun x hx => hpre x (List.mem_cons_of_mem c hx))

theorem matchBody_all_digits {ds : List Char} (h1 : ds ≠ [])
    (h2 : ∀ c ∈ ds, c.isDigit = true) : matchBody ds = some (ds, []) := by
  have ht : ds.takeWhile Char.isDigit = ds := List.takeWhile_eq_self_iff.mpr h2
  have hd : ds.dropWhile Char.isDigit = [] := List.dropWhile_eq_nil_iff.mpr h2
  simp only [matchBody, matchMantissa, ht, hd]
  rw [if_neg h1]
  rfl

theorem matchNumberAt_all_digits {ds : List Char} (h1 : ds ≠ [])
    (h2 : ∀ c ∈ ds, c.isDigit = true) : matchNumberAt ds = some (ds, []) := by
  cases ds with
  | nil => exact absurd rfl h1
  | cons d ds' =>
    have hd := h2 d (List.mem_cons_self d ds')
    simp only [matchNumberAt]
    rw [if_neg (isDigit_not_sign hd)]
    exact matchBody_all_digits h1 h2

theorem getNumbers_all_digits {ds : List Char} (h1 : ds ≠ [])
    (h2 : ∀ c ∈ ds, c.isDigit = true) : getNumbersFromString ds = [ds] := by
  cases hds : ds with
  | nil => exact absurd hds h1
  | cons d ds' =>
    rw [← hds]
    have hm := matchNumberAt_all_digits h1 h2
    rw [hds] at hm ⊢
    simp only [getNumbersFromString, List.length_cons, getNumbersGo, hm,
      getNumbersGo_nil]

theorem getNumbers_append_digits {pre ds : List Char}
    (hpre : ∀ c ∈ pre, c.isDigit = false ∧ ¬(c = '-' ∨ c = '+'))
    (h1 : ds ≠ []) (h2 : ∀ c ∈ ds, c.isDigit = true) :
    getNumbersFromString (pre ++ ds) = [ds] := by
  induction pre with
  | nil =>
    rw [List.nil_append]
    exact getNumbers_all_digits h1 h2
  | cons c t ih =>
    obtain ⟨hd, hs⟩ := hpre c (List.mem_cons_self c t)
    rw [List.cons_append, getNumbers_cons_of_skip hd hs]
    exact ih (fun x hx => hpre x (List.mem_cons_of_mem c hx))

theorem removeChars_nil (chars : List Char) : removeChars [] chars = [] := by
  induction chars with
  | nil => rfl
  | cons c cs ih => exact ih

theorem findIndexOfSublist_append_digits {pre ds : List Char}
    (hpre : ∀ c ∈ pre, c.isDigit = false) (h1 : ds ≠ [])
    (h2 : ∀ c ∈ ds, c.isDigit = true) :
    findIndexOfSublist (pre ++ ds) ds = some pre.length := by
  induction pre with
  | nil =>
    rw [List.nil_append]
    cases ds with
    | nil => exact absurd rfl h1
    | cons d ds' =>
      simp only [findIndexOfSublist, List.length_nil]
      rw [if_pos (List.isPrefixOf_iff_prefix.mpr (List.prefix_refl _))]
  | cons c t ih =>
    have hnp : ¬(ds.isPrefixOf (c :: (t ++ ds)) = true) := by
      cases ds with
      | nil => exact absurd rfl h1
      | cons d ds' =>
        have hd := h2 d (List.mem_cons_self d ds')
        have hc := hpre c (List.mem_cons_self c t)
        intro hpref
        have hdc := (List.cons_prefix_cons.mp (List.isPrefixOf_iff_prefix.mp hpref)).1
        rw [hdc] at hd
        rw [hd] at hc
        exact absurd hc (by simp)
    rw [List.cons_append]
    simp only [findIndexOfSublist]
    rw [if_neg hnp, ih (fun x hx => hpre x (List.mem_cons_of_mem c hx))]
    rfl

theorem stripString_append_digits {pre ds ignored : List Char}
    {strip_whitespace : Bool}
    (hpre : ∀ c ∈ pre, c.isDigit = false) (h1 : ds ≠ [])
    (h2 : ∀ c ∈ ds, c.isDigit = true) :
    stripString (pre ++ ds) [ds] ignored true strip_whitespace []
      = some (removeChars pre
          (ignored ++ (if strip_whitespace then [' ', '\n'] else []))) := by
  simp only [stripString, stripStringGo,
    findIndexOfSublist_append_digits hpre h1 h2]
  rw [List.take_left, show pre.length + ds.length = (pre ++ ds).length by
    simp, List.drop_length]
  simp only [stripStringGo, removeChars_nil, if_true, Option.map_some]
  simp

/-- Counterexample to C1 as stated: the outputs `"a5b"` and `"ab"` are
identical after stripping except that the first contains a numeric substring
where the second does not (the extracted number lists differ), yet
`text_test` comparison succeeds: in text mode numbers leave no placeholder,
so their presence or count does not have to align. -/
theorem c1_counterexample :
    getNumbersFromString "a5b".toList = ["5".toList] ∧
    getNumbersFromString "ab".toList = [] ∧
    text_test_compare "a5b".toList "ab".toList default_ignored_characters false
      = some true :=
  ⟨by decide, by decide, by decide⟩

/-- C1 (amended): in text comparison mode numbers are stripped entirely with
no placeholder kept, so the presence or count of numbers cannot make the
comparison fail: an output that extends the other by a trailing numeric
substring compares equal to it. -/
theorem c1_text_mode_drops_numbers (pre ds ignored : List Char)
    (hpre : ∀ c ∈ pre, c.isDigit = false ∧ ¬(c = '-' ∨ c = '+'))
    (h1 : ds ≠ []) (h2 : ∀ c ∈ ds, c.isDigit = true) :
    text_test_compare (pre ++ ds) pre ignored false = some true := by
  have ha := getNumbers_append_digits hpre h1 h2
  have hb := getNumbers_nil_of_skip hpre
  have hc := @stripString_append_digits pre ds ignored true
    (fun c hx => (hpre c hx).1) h1 h2
  simp only [text_test_compare, ha, hb, hc]
  have hd : stripString pre [] ignored true true []
      = some (removeChars pre (ignored ++ [' ', '\n'])) := rfl
  rw [hd]
  simp

/-- Witness for C1's amended theorem at the concrete pair
`"value: 42"` / `"value: "`. -/
theorem c1_text_mode_drops_numbers_witness :
    text_test_compare ("value: ".toList ++ "42".toList) "value: ".toList
      default_ignored_characters false = some true :=
  c1_text_mode_drops_numbers "value: ".toList "42".toList
    default_ignored_characters (by decide) (by decide) (by decide)

/-! ## Claim C4: numeric comparison semantics -/

theorem toLower_of_isDigit {c : Char} (h : c.isDigit = true) : c.toLower = c := by
  simp only [Char.isDigit, Bool.and_eq_true, decide_eq_true_eq] at h
  obtain ⟨h1, h2⟩ := h
  have h2' : c.toNat ≤ (57 : UInt32).toNat := h2
  have h57 : (57 : UInt32).toNat = 57 := rfl
  rw [h57] at h2'
  simp only [Char.toLower]
  rw [if_neg]
  rintro ⟨ha, _⟩
  omega

theorem dropWhile_head_false {p : Char → Bool} {l : List Char} {d : Char} {r : List Char}
    (h : l.dropWhile p = d :: r) : p d = false := by
  have hl : 0 < (l.dropWhile p).length := by
    rw [h]
    simp
  simpa [h] using List.dropWhile_get_zero_not (p := p) l hl

theorem splitSign_snd_mem {x : Char} {s : List Char} (hx : x ∈ (splitSign s).2) :
    x ∈ s := by
  rw [splitSign.eq_def] at hx
  split at hx
  · exact List.mem_cons_of_mem _ hx
  · exact List.mem_cons_of_mem _ hx
  · exact hx

theorem mem_splitSign_of_ne {x : Char} {s : List Char} (hx : x ∈ s) (h1 : x ≠ '-')
    (h2 : x ≠ '+') : x ∈ (splitSign s).2 := by
  rw [splitSign.eq_def]
  split
  · rename_i rest
    rcases List.mem_cons.mp hx with rfl | hm
    · exact absurd rfl h1
    · exact hm
  · rename_i rest
    rcases List.mem_cons.mp hx with rfl | hm
    · exact absurd rfl h2
    · exact hm
  · exact hx

theorem digitsVal?_some {s : List Char} (h1 : s ≠ [])
    (h2 : ∀ c ∈ s, c.isDigit = true) : ∃ n, digitsVal? s = some n := by
  simp only [digitsVal?]
  rw [if_pos ⟨h1, List.all_eq_true.mpr h2⟩]
  exact ⟨_, rfl⟩

theorem digitsVal?_none {s : List Char} {x : Char} (hx : x ∈ s)
    (hd : x.isDigit = false) : digitsVal? s = none := by
  simp only [digitsVal?]
  rw [if_neg]
  rintro ⟨_, hall⟩
  have := List.all_eq_true.mp hall x hx
  rw [hd] at this
  exact Bool.false_ne_true this

theorem expValue?_head {c : Char} {r : List Char}
    (h : (expValue? (c :: r)).isSome = true) : c = 'e' ∨ c = 'E' := by
  by_contra hne
  simp [expValue?, hne] at h

theorem numeralValueUnsigned_digits {r : List Char} (hdot : '.' ∉ r)
    (he : 'e' ∉ lowerList r) (hs : (numeralValueUnsigned? r).isSome = true) :
    r ≠ [] ∧ ∀ c ∈ r, c.isDigit = true := by
  by_cases hip : r.takeWhile Char.isDigit = []
  · simp [numeralValueUnsigned?, hip] at hs
  · cases hdw : r.dropWhile Char.isDigit with
    | nil =>
      have hself : r.takeWhile Char.isDigit = r := by
        conv_rhs => rw [← List.takeWhile_append_dropWhile (p := Char.isDigit) (l := r)]
        rw [hdw, List.append_nil]
      refine ⟨?_, List.takeWhile_eq_self_iff.mp hself⟩
      intro hr0
      rw [hr0] at hip
      exact hip rfl
    | cons d rest =>
      exfalso
      have hdfalse : d.isDigit = false := dropWhile_head_false hdw
      have hdmem : d ∈ r := by
        have hsub := List.dropWhile_sublist (l := r) (p := Char.isDigit)
        rw [hdw] at hsub
        exact hsub.subset (List.mem_cons_self d rest)
      by_cases hd_dot : d = '.'
      · exact hdot (hd_dot ▸ hdmem)
      · have hexp : (expValue? (d :: rest)).isSome = true := by
          simp only [numeralValueUnsigned?, hdw] at hs
          rw [if_neg hip, if_neg hd_dot] at hs
          simpa using hs
        rcases expValue?_head hexp with rfl | rfl
        · exact he (List.mem_map.mpr ⟨'e', hdmem, by decide⟩)
        · exact he (List.mem_map.mpr ⟨'E', hdmem, by decide⟩)

theorem numeralValueUnsigned_all_digits {r : List Char} (h1 : r ≠ [])
    (h2 : ∀ c ∈ r, c.isDigit = true) {n : Nat} (hd : digitsVal? r = some n) :
    numeralValueUnsigned? r = some ((n : Nat) : ℚ) := by
  have ht : r.takeWhile Char.isDigit = r := List.takeWhile_eq_self_iff.mpr h2
  have hw : r.dropWhile Char.isDigit = [] := List.dropWhile_eq_nil_iff.mpr h2
  simp only [numeralValueUnsigned?, ht, hw, hd]
  rw [if_neg h1]
  simp

theorem intOfString?_eq_none {a : List Char} (h : '.' ∈ a ∨ 'e' ∈ lowerList a) :
    intOfString? a = none := by
  obtain ⟨x, hx_mem, hx_digit⟩ : ∃ x, x ∈ (splitSign a).2 ∧ x.isDigit = false := by
    rcases h with hdot | he
    · exact ⟨'.', mem_splitSign_of_ne hdot (by decide) (by decide), by decide⟩
    · obtain ⟨c, hc, hlc⟩ := List.mem_map.mp he
      refine ⟨c, mem_splitSign_of_ne hc ?_ ?_, ?_⟩
      · rintro rfl
        exact absurd hlc (by decide)
      · rintro rfl
        exact absurd hlc (by decide)
      · by_contra hd
        rw [Bool.not_eq_false] at hd
        rw [toLower_of_isDigit hd] at hlc
        rw [hlc] at hd
        exact absurd hd (by decide)
  rw [intOfString?, digitsVal?_none hx_mem hx_digit]
  rfl

theorem intOfString?_of_no_dot_exp {a : List Char} (hdot : '.' ∉ a)
    (he : 'e' ∉ lowerList a) (hs : (numeralValue? a).isSome = true) :
    ∃ z : Int, intOfString? a = some z ∧ numeralValue? a = some ((z : Int) : ℚ) := by
  have hus : (numeralValueUnsigned? (splitSign a).2).isSome = true := by
    simpa [numeralValue?] using hs
  have hdot' : '.' ∉ (splitSign a).2 := fun hx => hdot (splitSign_snd_mem hx)
  have he' : 'e' ∉ lowerList (splitSign a).2 := by
    intro hx
    obtain ⟨c, hc, hlc⟩ := List.mem_map.mp hx
    exact he (List.mem_map.mpr ⟨c, splitSign_snd_mem hc, hlc⟩)
  obtain ⟨hne, hall⟩ := numeralValueUnsigned_digits hdot' he' hus
  obtain ⟨n, hd⟩ := digitsVal?_some hne hall
  have hval := numeralValueUnsigned_all_digits hne hall hd
  refine ⟨if (splitSign a).1 then -(n : Int) else (n : Int), ?_, ?_⟩
  · rw [intOfString?, hd]
    rfl
  · rw [numeralValue?, hval]
    cases (splitSign a).1 <;> simp

/-- C4: for an aligned pair of extracted numbers in `numbers_test`, with the
expected number in scientific notation the pair matches iff the lowercased
strings are equal; with an integer expected number the pair matches iff the
actual number is also an integer numeral and the integer values differ by at
most `max_int_delta`; otherwise the pair matches iff the (exact rational)
float values differ by at most `max_float_delta` — so values within the
delta match and values strictly beyond it mismatch. -/
theorem c4_numbers_pair_semantics (a b : List Char) (max_int_delta : Int)
    (max_float_delta : ℚ) (ha : (numeralValue? a).isSome = true)
    (hb : (numeralValue? b).isSome = true) :
    ('e' ∈ lowerList b →
      (numbers_compare_pair a b max_int_delta max_float_delta = true ↔
        lowerList a = lowerList b)) ∧
    ('e' ∉ lowerList b → '.' ∉ b →
      (numbers_compare_pair a b max_int_delta max_float_delta = true ↔
        ('.' ∉ a ∧ 'e' ∉ lowerList a ∧
          |(numeralValue? a).getD 0 - (numeralValue? b).getD 0|
            ≤ (max_int_delta : ℚ)))) ∧
    ('e' ∉ lowerList b → '.' ∈ b →
      (numbers_compare_pair a b max_int_delta max_float_delta = true ↔
        |(numeralValue? a).getD 0 - (numeralValue? b).getD 0| ≤ max_float_delta)) ∧
    (∀ output expected_output : List Char,
      numbers_test_compare output expected_output max_int_delta max_float_delta = true ↔
        ((getNumbersFromString output).length
            = (getNumbersFromString expected_output).length ∧
          ∀ p ∈ (getNumbersFromString output).zip (getNumbersFromString expected_output),
            numbers_compare_pair p.1 p.2 max_int_delta max_float_delta = true)) := by
  refine ⟨?_, ?_, ?_, ?_⟩
  · intro hbe
    simp [numbers_compare_pair, hbe]
  · intro hbe hbdot
    simp only [numbers_compare_pair, if_neg hbe, if_pos hbdot]
    by_cases hsplit : '.' ∈ a ∨ 'e' ∈ lowerList a
    · rw [intOfString?_eq_none hsplit]
      constructor
      · intro hfalse
        simp at hfalse
      · rintro ⟨ha1, ha2, _⟩
        rcases hsplit with h | h
        · exact absurd h ha1
        · exact absurd h ha2
    · push_neg at hsplit
      obtain ⟨hadot, hae⟩ := hsplit
      obtain ⟨za, hza, hva⟩ := intOfString?_of_no_dot_exp hadot hae ha
      obtain ⟨zb, hzb, hvb⟩ := intOfString?_of_no_dot_exp hbdot hbe hb
      rw [hza, hzb, hva, hvb]
      simp only [Option.getD_some]
      have hcast : |(za : ℚ) - (zb : ℚ)| ≤ (max_int_delta : ℚ) ↔
          |za - zb| ≤ max_int_delta := by
        rw [← Int.cast_sub, ← Int.cast_abs]
        exact_mod_cast Iff.rfl
      simp [decide_eq_true_eq, hcast, hadot, hae]
  · intro hbe hbdot
    have hbdot' : ¬('.' ∉ b) := fun hn => hn hbdot
    simp only [numbers_compare_pair, if_neg hbe, if_neg hbdot']
    obtain ⟨qa, hqa⟩ := Option.isSome_iff_exists.mp ha
    obtain ⟨qb, hqb⟩ := Option.isSome_iff_exists.mp hb
    rw [hqa, hqb]
    simp [decide_eq_true_eq]
  · intro output expected_output
    simp [numbers_test_compare, List.all_eq_true]

/-- Witness for C4 at the spec's example pair `"3.14"` / `"3.15"` with
`max_float_delta` instantiated to the default `0.02`. -/
theorem c4_numbers_pair_semantics_witness :
    numbers_compare_pair "3.14".toList "3.15".toList 0 (1 / 50) = true ↔
      |(numeralValue? "3.14".toList).getD 0 - (numeralValue? "3.15".toList).getD 0|
        ≤ (1 / 50 : ℚ) :=
  (c4_numbers_pair_semantics "3.14".toList "3.15".toList 0 (1 / 50)
    (by decide) (by decide)).2.2.1 (by decide) (by decide)

/-! ## Claim C3: the whitespace minus-check patch -/

theorem findIndexOfSublist_append_head {pre : List Char} {d : Char} {ds' : List Char}
    (hpre : ∀ c ∈ pre, c ≠ d) :
    findIndexOfSublist (pre ++ (d :: ds')) (d :: ds') = some pre.length := by
  induction pre with
  | nil =>
    simp only [List.nil_append, findIndexOfSublist, List.length_nil]
    rw [if_pos (List.isPrefixOf_iff_prefix.mpr (List.prefix_refl _))]
  | cons c t ih =>
    have hcd := hpre c (List.mem_cons_self c t)
    have hnp : ¬((d :: ds').isPrefixOf (c :: (t ++ (d :: ds'))) = true) := by
      intro hpref
      exact hcd ((List.cons_prefix_cons.mp (List.isPrefixOf_iff_prefix.mp hpref)).1).symm
    rw [List.cons_append]
    simp only [findIndexOfSublist]
    rw [if_neg hnp, ih (fun x hx => hpre x (List.mem_cons_of_mem c hx))]
    rfl

theorem removeChars_id {s chars : List Char} (h : ∀ x ∈ s, ∀ c ∈ chars, x ≠ c) :
    removeChars s chars = s := by
  induction chars with
  | nil => rfl
  | cons c cs ih =>
    have hst : s.filter (fun x => decide (x ≠ c)) = s :=
      List.filter_eq_self.mpr
        (fun a ha => decide_eq_true (h a ha c (List.mem_cons_self c cs)))
    show removeChars (s.filter _) cs = s
    rw [hst]
    exact ih (fun x hx c' hc' => h x hx c' (List.mem_cons_of_mem c hc'))

theorem stripString_single {pre ds ignored : List Char} (mcidx : List Nat)
    (hfind : findIndexOfSublist (pre ++ ds) ds = some pre.length)
    (hclean : removeChars pre (ignored ++ []) = pre) :
    stripString (pre ++ ds) [ds] ignored false false mcidx
      = some (pre ++ (if 0 ∈ mcidx then IOTESTER_MINUS_CHECK else IOTESTER_NUMBER)) := by
  simp only [stripString, stripStringGo, hfind, Bool.false_eq_true, if_false]
  rw [List.take_left, hclean,
    show pre.length + ds.length = (pre ++ ds).length by simp, List.drop_length]
  simp only [stripStringGo, removeChars_nil]
  simp

theorem lowerList_append (s t : List Char) :
    lowerList (s ++ t) = lowerList s ++ lowerList t := List.map_append _ s t

theorem lowerList_replicate_space (k : Nat) :
    lowerList (List.replicate k ' ') = List.replicate k ' ' := by
  simp [lowerList, List.map_replicate]

theorem getNumbers_replicate_space (k : Nat) (t : List Char) :
    getNumbersFromString (List.replicate k ' ' ++ t) = getNumbersFromString t := by
  induction k with
  | zero => rfl
  | succ j ih =>
    rw [List.replicate_succ, List.cons_append,
      getNumbers_cons_of_skip (by decide) (by decide), ih]

theorem findallMinusCheckGo_nil (fuel : Nat) : findallMinusCheckGo fuel [] = [] := by
  cases fuel <;> rfl

theorem matchMinusCheckAt_cons_none {c : Char} {t : List Char}
    (hws : isPySpace c = false) (hbr : c ≠ '[') :
    matchMinusCheckAt (c :: t) = none := by
  have htake : (c :: t).takeWhile isPySpace = [] := by
    simp [List.takeWhile_cons, hws]
  have hdrop : (c :: t).dropWhile isPySpace = c :: t := by
    simp [List.dropWhile_cons, hws]
  simp only [matchMinusCheckAt, htake, hdrop]
  rw [if_neg]
  intro hpref
  have := (List.cons_prefix_cons.mp (List.isPrefixOf_iff_prefix.mp hpref)).1
  exact hbr this.symm

theorem findallMinusCheck_cons_skip {c : Char} {t : List Char}
    (hws : isPySpace c = false) (hbr : c ≠ '[') :
    findallMinusCheck (c :: t) = findallMinusCheck t := by
  simp only [findallMinusCheck, List.length_cons, findallMinusCheckGo,
    matchMinusCheckAt_cons_none hws hbr]

theorem takeWhile_spaces_MC (k : Nat) :
    (List.replicate k ' ' ++ IOTESTER_MINUS_CHECK).takeWhile isPySpace
      = List.replicate k ' ' := by
  induction k with
  | zero => decide
  | succ j ih =>
    rw [List.replicate_succ, List.cons_append, List.takeWhile_cons]
    simp only [show isPySpace ' ' = true from rfl, if_true]
    rw [ih, ← List.replicate_succ]

theorem dropWhile_spaces_MC (k : Nat) :
    (List.replicate k ' ' ++ IOTESTER_MINUS_CHECK).dropWhile isPySpace
      = IOTESTER_MINUS_CHECK := by
  induction k with
  | zero => decide
  | succ j ih =>
    rw [List.replicate_succ, List.cons_append, List.dropWhile_cons]
    simp only [show isPySpace ' ' = true from rfl, if_true]
    exact ih

theorem matchMinusCheckAt_spaces (k : Nat) :
    matchMinusCheckAt (List.replicate k ' ' ++ IOTESTER_MINUS_CHECK)
      = some (List.replicate k ' ' ++ IOTESTER_MINUS_CHECK, []) := by
  simp only [matchMinusCheckAt, takeWhile_spaces_MC, dropWhile_spaces_MC]
  rw [if_pos (List.isPrefixOf_iff_prefix.mpr (List.prefix_refl _)), List.drop_length]
  simp

theorem findallMinusCheck_single {cs m : List Char}
    (h : matchMinusCheckAt cs = some (m, [])) (hne : cs ≠ []) :
    findallMinusCheck cs = [m] := by
  cases cs with
  | nil => exact absurd rfl hne
  | cons c t =>
    simp only [findallMinusCheck, List.length_cons, findallMinusCheckGo, h,
      findallMinusCheckGo_nil]

theorem findallMinusCheck_x_spaces (k : Nat) :
    findallMinusCheck ('x' :: (List.replicate k ' ' ++ IOTESTER_MINUS_CHECK))
      = [List.replicate k ' ' ++ IOTESTER_MINUS_CHECK] := by
  rw [findallMinusCheck_cons_skip (by decide) (by decide)]
  refine findallMinusCheck_single (matchMinusCheckAt_spaces k) ?_
  cases k with
  | zero => decide
  | succ j =>
    rw [List.replicate_succ, List.cons_append]
    exact List.cons_ne_nil _ _

theorem countSpaces_spaces_MC (k : Nat) :
    countSpaces (List.replicate k ' ' ++ IOTESTER_MINUS_CHECK) = k := by
  induction k with
  | zero => decide
  | succ j ih =>
    rw [List.replicate_succ, List.cons_append]
    have hstep : countSpaces (' ' :: (List.replicate j ' ' ++ IOTESTER_MINUS_CHECK))
        = countSpaces (List.replicate j ' ' ++ IOTESTER_MINUS_CHECK) + 1 := by
      simp [countSpaces, List.filter_cons]
    rw [hstep, ih]

theorem replaceAllGo_empty (pat sub : List Char) (fuel : Nat) :
    replaceAllGo pat sub fuel [] = [] := by
  cases fuel <;> rfl

theorem replaceAllGo_self {pat sub : List Char} (hne : pat ≠ []) :
    replaceAllGo pat sub pat.length pat = sub := by
  cases pat with
  | nil => exact absurd rfl hne
  | cons p ps =>
    have hdrop : List.drop (ps.length + 1) (p :: ps) = [] := by simp
    simp only [List.length_cons, replaceAllGo]
    rw [if_pos (List.isPrefixOf_iff_prefix.mpr (List.prefix_refl _))]
    rw [hdrop, replaceAllGo_empty, List.append_nil]

theorem replaceAllGo_cons_skip {pat sub : List Char} {c : Char} {t : List Char}
    (h : pat.isPrefixOf (c :: t) = false) :
    replaceAllGo pat sub (t.length + 1) (c :: t) = c :: replaceAllGo pat sub t.length t := by
  simp only [replaceAllGo]
  rw [if_neg (by simp [h])]

theorem spaces_MC_not_prefix_x (k : Nat) (t : List Char) :
    (List.replicate k ' ' ++ IOTESTER_MINUS_CHECK).isPrefixOf ('x' :: t) = false := by
  cases k with
  | zero =>
    rw [Bool.eq_false_iff]
    intro hpref
    have hp : IOTESTER_MINUS_CHECK <+: ('x' :: t) :=
      List.isPrefixOf_iff_prefix.mp (by simpa using hpref)
    have hmc : IOTESTER_MINUS_CHECK = '[' :: "iotester-minus-check]".toList := by decide
    rw [hmc] at hp
    exact absurd (List.cons_prefix_cons.mp hp).1 (by decide)
  | succ j =>
    rw [List.replicate_succ, List.cons_append, Bool.eq_false_iff]
    intro hpref
    have := (List.cons_prefix_cons.mp (List.isPrefixOf_iff_prefix.mp hpref)).1
    exact absurd this (by decide)

theorem replaceAll_x_pat (pat sub : List Char) (hne : pat ≠ [])
    (hnp : pat.isPrefixOf ('x' :: pat) = false) :
    replaceAll ('x' :: pat) pat sub = 'x' :: sub := by
  rw [replaceAll, if_pos (List.length_pos.mpr hne)]
  rw [show ('x' :: pat).length = pat.length + 1 from rfl]
  rw [replaceAllGo_cons_skip hnp, replaceAllGo_self hne]

theorem spaces_MC_ne_nil (k : Nat) :
    List.replicate k ' ' ++ IOTESTER_MINUS_CHECK ≠ [] := by
  intro h
  have := congrArg List.length h
  simp [show IOTESTER_MINUS_CHECK.length = 22 from by decide] at this

theorem patch_x_spaces (m n : Nat) :
    whitespace_minus_check_patch
        ('x' :: (List.replicate m ' ' ++ IOTESTER_MINUS_CHECK))
        ('x' :: (List.replicate n ' ' ++ IOTESTER_MINUS_CHECK))
      = (if ((n : Int) - (m : Int)) ∈ ([-1, 0, 1] : List Int)
          then 'x' :: (List.replicate n ' ' ++ IOTESTER_MINUS_CHECK)
          else 'x' :: (List.replicate m ' ' ++ IOTESTER_MINUS_CHECK),
        'x' :: (List.replicate n ' ' ++ IOTESTER_MINUS_CHECK)) := by
  simp only [whitespace_minus_check_patch, findallMinusCheck_x_spaces,
    List.zip_cons_cons, List.zip_nil_right, patchGo, countSpaces_spaces_MC]
  by_cases hcond : ((n : Int) - (m : Int)) ∈ ([-1, 0, 1] : List Int)
  · rw [if_pos hcond, if_pos hcond]
    rw [replaceAll_x_pat _ _ (spaces_MC_ne_nil m) (spaces_MC_not_prefix_x m _)]
  · rw [if_neg hcond, if_neg hcond]

theorem lower_x_spaces_MC (k : Nat) :
    lowerList ('x' :: (List.replicate k ' ' ++ IOTESTER_MINUS_CHECK))
      = 'x' :: (List.replicate k ' ' ++ IOTESTER_MINUS_CHECK) := by
  show Char.toLower 'x' :: lowerList (List.replicate k ' ' ++ IOTESTER_MINUS_CHECK) = _
  rw [lowerList_append, lowerList_replicate_space,
    show lowerList IOTESTER_MINUS_CHECK = IOTESTER_MINUS_CHECK from by decide,
    show Char.toLower 'x' = 'x' from by decide]

theorem filter_replicate_false {p : Char → Bool} {c : Char} (h : p c = false) (k : Nat) :
    (List.replicate k c).filter p = [] := by
  induction k with
  | zero => rfl
  | succ j ih =>
    rw [List.replicate_succ, List.filter_cons]
    simp [h, ih]

theorem removeChars_eq_filter : ∀ (chars s : List Char),
    removeChars s chars = s.filter (fun c => !chars.contains c)
  | [], s => (List.filter_eq_self.mpr (fun a _ => rfl)).symm
  | c :: cs, s => by
    show removeChars (s.filter _) cs = _
    rw [removeChars_eq_filter cs (s.filter _), List.filter_filter]
    apply List.filter_congr
    intro a _
    by_cases hac : a = c <;> simp [hac, List.contains_cons]

theorem removeChars_x_spaces_ws (k : Nat) :
    removeChars ('x' :: List.replicate k ' ')
      (default_ignored_characters ++ [' ', '\n']) = ['x'] := by
  rw [removeChars_eq_filter, List.filter_cons]
  rw [if_pos (by decide)]
  rw [filter_replicate_false (by decide)]

theorem stripString_single_strip {pre ds ignored : List Char} (strip_whitespace : Bool)
    (hfind : findIndexOfSublist (pre ++ ds) ds = some pre.length) :
    stripString (pre ++ ds) [ds] ignored true strip_whitespace []
      = some (removeChars pre
          (ignored ++ (if strip_whitespace then [' ', '\n'] else []))) := by
  simp only [stripString, stripStringGo, hfind]
  rw [List.take_left, show pre.length + ds.length = (pre ++ ds).length by
    simp, List.drop_length]
  simp only [stripStringGo, removeChars_nil, if_true, Option.map_some]
  simp

/-- Counterexample to C3 as stated: for actual output `"x\n\n 00"` against
expected output `"x -0"` the signs differ and the whitespace runs around the
sign-differing number differ by two characters (two newlines: `"\n\n "`
versus `" "`), yet every phase of `complete_output_test` succeeds — the text
phase; the numbers phase, which `complete_output_test` runs with
`compare_formatting=True` (the values `int("00")` and `int("-0")` are both
`0`, within the default delta `0`, and the string lengths are both `2`); and
the whitespace phase with the minus-check patch, which counts only `' '`
characters (one on each side). -/
theorem c3_counterexample :
    getNumbersFromString "x\n\n 00".toList = ["00".toList] ∧
    getNumbersFromString "x -0".toList = ["-0".toList] ∧
    ("\n\n ".toList).length = (" ".toList).length + 2 ∧
    text_test_compare "x\n\n 00".toList "x -0".toList
      default_ignored_characters false = some true ∧
    numbers_test_compare_fmt "x\n\n 00".toList "x -0".toList 0 (1 / 50) = true ∧
    complete_output_compare "x\n\n 00".toList "x -0".toList
      default_ignored_characters = some true :=
  ⟨by decide, by decide, by decide, by decide, by decide, by decide⟩

/-- C3 (amended): the minus-check patch tolerates a sign difference exactly
when the number of space characters (`' '`, newlines are not counted) in the
whitespace runs surrounding the sign-differing number differs by at most one
between the two outputs: with runs of `m` and `n` spaces around the numerals
`"00"` and `"-0"` the text phase and the `compare_formatting=True` numbers
phase of `complete_output_test` always succeed, and the whitespace
comparison succeeds iff `|m - n| <= 1`, so a difference of two or more
spaces still fails. -/
theorem c3_minus_patch_space_count (m n : Nat) :
    text_test_compare ('x' :: (List.replicate m ' ' ++ ['0', '0']))
        ('x' :: (List.replicate n ' ' ++ ['-', '0']))
        default_ignored_characters false = some true ∧
    numbers_test_compare_fmt ('x' :: (List.replicate m ' ' ++ ['0', '0']))
        ('x' :: (List.replicate n ' ' ++ ['-', '0'])) 0 (1 / 50) = true ∧
    complete_output_compare ('x' :: (List.replicate m ' ' ++ ['0', '0']))
        ('x' :: (List.replicate n ' ' ++ ['-', '0'])) default_ignored_characters
      = some (decide (n ≤ m + 1 ∧ m ≤ n + 1)) := by
  have hn1 : getNumbersFromString ('x' :: (List.replicate m ' ' ++ ['0', '0']))
      = [['0', '0']] := by
    rw [getNumbers_cons_of_skip (by decide) (by decide), getNumbers_replicate_space]
    decide
  have hn2 : getNumbersFromString ('x' :: (List.replicate n ' ' ++ ['-', '0']))
      = [['-', '0']] := by
    rw [getNumbers_cons_of_skip (by decide) (by decide), getNumbers_replicate_space]
    decide
  have hpre1 : ∀ c ∈ ('x' :: List.replicate m ' '), c ≠ '0' := by
    intro c hc
    rcases List.mem_cons.mp hc with rfl | hr
    · decide
    · rw [List.eq_of_mem_replicate hr]
      decide
  have hpre2 : ∀ c ∈ ('x' :: List.replicate n ' '), c ≠ '-' := by
    intro c hc
    rcases List.mem_cons.mp hc with rfl | hr
    · decide
    · rw [List.eq_of_mem_replicate hr]
      decide
  have hts1 : stripString ('x' :: (List.replicate m ' ' ++ ['0', '0'])) [['0', '0']]
      default_ignored_characters true true [] = some ['x'] := by
    have h : stripString (('x' :: List.replicate m ' ') ++ ['0', '0']) [['0', '0']]
        default_ignored_characters true true []
          = some (removeChars ('x' :: List.replicate m ' ')
            (default_ignored_characters ++ [' ', '\n'])) :=
      stripString_single_strip true (findIndexOfSublist_append_head hpre1)
    rw [show ('x' :: List.replicate m ' ') ++ ['0', '0']
        = 'x' :: (List.replicate m ' ' ++ ['0', '0']) from rfl] at h
    rw [h, removeChars_x_spaces_ws]
  have hts2 : stripString ('x' :: (List.replicate n ' ' ++ ['-', '0'])) [['-', '0']]
      default_ignored_characters true true [] = some ['x'] := by
    have h : stripString (('x' :: List.replicate n ' ') ++ ['-', '0']) [['-', '0']]
        default_ignored_characters true true []
          = some (removeChars ('x' :: List.replicate n ' ')
            (default_ignored_characters ++ [' ', '\n'])) :=
      stripString_single_strip true (findIndexOfSublist_append_head hpre2)
    rw [show ('x' :: List.replicate n ' ') ++ ['-', '0']
        = 'x' :: (List.replicate n ' ' ++ ['-', '0']) from rfl] at h
    rw [h, removeChars_x_spaces_ws]
  have htext : text_test_compare ('x' :: (List.replicate m ' ' ++ ['0', '0']))
      ('x' :: (List.replicate n ' ' ++ ['-', '0']))
      default_ignored_characters false = some true := by
    simp only [text_test_compare, hn1, hn2, hts1, hts2]
    decide
  have hnum : numbers_test_compare_fmt ('x' :: (List.replicate m ' ' ++ ['0', '0']))
      ('x' :: (List.replicate n ' ' ++ ['-', '0'])) 0 (1 / 50) = true := by
    simp only [numbers_test_compare_fmt, hn1, hn2]
    decide
  refine ⟨htext, hnum, ?_⟩
  have hclean : ∀ k : Nat, removeChars ('x' :: List.replicate k ' ')
      (default_ignored_characters ++ []) = ('x' :: List.replicate k ' ') := by
    intro k
    apply removeChars_id
    intro x hx c hc
    rw [List.append_nil] at hc
    rcases List.mem_cons.mp hx with rfl | hr
    · exact (show ∀ c ∈ default_ignored_characters, 'x' ≠ c from by decide) c hc
    · rw [List.eq_of_mem_replicate hr]
      exact (show ∀ c ∈ default_ignored_characters, ' ' ≠ c from by decide) c hc
  have hstrip1 : stripString ('x' :: (List.replicate m ' ' ++ ['0', '0'])) [['0', '0']]
      default_ignored_characters false false [0]
        = some ('x' :: (List.replicate m ' ' ++ IOTESTER_MINUS_CHECK)) := by
    have h := @stripString_single ('x' :: List.replicate m ' ') ['0', '0']
      default_ignored_characters [0] (findIndexOfSublist_append_head hpre1) (hclean m)
    rw [show ('x' :: List.replicate m ' ') ++ ['0', '0']
        = 'x' :: (List.replicate m ' ' ++ ['0', '0']) from rfl] at h
    rw [h]
    rw [if_pos (by decide)]
    rfl
  have hstrip2 : stripString ('x' :: (List.replicate n ' ' ++ ['-', '0'])) [['-', '0']]
      default_ignored_characters false false [0]
        = some ('x' :: (List.replicate n ' ' ++ IOTESTER_MINUS_CHECK)) := by
    have h := @stripString_single ('x' :: List.replicate n ' ') ['-', '0']
      default_ignored_characters [0] (findIndexOfSublist_append_head hpre2) (hclean n)
    rw [show ('x' :: List.replicate n ' ') ++ ['-', '0']
        = 'x' :: (List.replicate n ' ' ++ ['-', '0']) from rfl] at h
    rw [h]
    rw [if_pos (by decide)]
    rfl
  simp only [complete_output_compare, hn1, hn2,
    show minusCheckIndexes [['0', '0']] [['-', '0']] = [0] from by decide,
    hstrip1, hstrip2, lower_x_spaces_MC, patch_x_spaces]
  by_cases hcond : ((n : Int) - (m : Int)) ∈ ([-1, 0, 1] : List Int)
  · rw [if_pos hcond]
    have hd : (n : Int) - m = -1 ∨ (n : Int) - m = 0 ∨ (n : Int) - m = 1 := by
      simpa using hcond
    rw [beq_self_eq_true, decide_eq_true (show n ≤ m + 1 ∧ m ≤ n + 1 by omega)]
  · rw [if_neg hcond]
    have hmn : m ≠ n := by
      intro h
      subst h
      exact hcond (by simp)
    have hne : ('x' :: (List.replicate m ' ' ++ IOTESTER_MINUS_CHECK))
        ≠ ('x' :: (List.replicate n ' ' ++ IOTESTER_MINUS_CHECK)) := by
      intro h
      have := congrArg List.length h
      simp at this
      exact hmn this
    have harith : ¬(n ≤ m + 1 ∧ m ≤ n + 1) := by
      intro hle
      apply hcond
      simp only [List.mem_cons, List.mem_singleton]
      omega
    rw [beq_eq_false_iff_ne.mpr hne, decide_eq_false harith]

end IOTesterSpec
